import Mathlib

/-!
# goulash: the universe Cookbook and its structural diff

A verification development for `universe/cookbook.go`: the `Cookbook` struct, `NewCookbook`,
and the methods `Empty`, `Equals` and `Diff`.

Go values are embedded as follows.

* A pointer `*T` is an `Option T`; `none` is the nil pointer.
* A Go map with string keys is a `GoMap`: its entries, kept in strictly ascending key order
  (keys compared as character lists).
  Two Go maps hold the same entries exactly when their models are equal.  A map-typed field is
  an `Option (GoMap V)`; `none` is the nil map, `some GoMap.empty` the empty non-nil map.
* A function that can fault at run time (nil dereference, assignment into a nil map) returns an
  `Option`; `none` is the fault.
* A `range` loop visits the keys in the order of `GoMap.keys` (Go leaves the order open).
-/

namespace Goulash

/-! ## Go maps -/

/-- A Go map with string keys: the entries, in strictly ascending key order. -/
structure GoMap (V : Type) where
  entries : List (String × V)
  ordered : entries.Pairwise (fun p q => p.1.data < q.1.data)

namespace GoMap

variable {V : Type}

/-- The map literal with no entries (a non-nil, empty map). -/
def empty : GoMap V := ⟨[], List.Pairwise.nil⟩

/-- The keys of the map, in the order a `range` loop of the model visits them. -/
def keys (m : GoMap V) : List String := m.entries.map Prod.fst

/-- Go `len(m)`. -/
def len (m : GoMap V) : Nat := m.entries.length

/-- Search of an entry list for a key. -/
def lookupList : List (String × V) → String → Option V
  | [], _ => none
  | (k', v) :: rest, k => if k = k' then some v else lookupList rest k

/-- The two-result index expression `v, ok := m[k]`: `none` when the key is not in the map. -/
def lookup (m : GoMap V) (k : String) : Option V := lookupList m.entries k

/-- Key membership. -/
def contains (m : GoMap V) (k : String) : Bool := (m.lookup k).isSome

/-- Writing an entry into an ordered entry list: replaces the value of a key already there. -/
def insertList : List (String × V) → String → V → List (String × V)
  | [], k, v => [(k, v)]
  | (k', v') :: rest, k, v =>
    if k.data < k'.data then (k, v) :: (k', v') :: rest
    else if k = k' then (k, v) :: rest
    else (k', v') :: insertList rest k v

theorem insertList_fst (l : List (String × V)) (k : String) (v : V) (p : String × V)
    (hp : p ∈ insertList l k v) : p.1 = k ∨ p ∈ l := by
  induction l with
  | nil =>
    simp only [insertList, List.mem_singleton] at hp
    left; rw [hp]
  | cons hd tl ih =>
    obtain ⟨k', v'⟩ := hd
    simp only [insertList] at hp
    split_ifs at hp with h1 h2
    · rcases List.mem_cons.1 hp with h | h
      · left; rw [h]
      · right; exact h
    · rcases List.mem_cons.1 hp with h | h
      · left; rw [h]
      · right; exact List.mem_cons_of_mem _ h
    · rcases List.mem_cons.1 hp with h | h
      · right; rw [h]; exact List.mem_cons_self _ _
      · rcases ih h with h | h
        · left; exact h
        · right; exact List.mem_cons_of_mem _ h

theorem insertList_ordered (l : List (String × V)) (k : String) (v : V)
    (hl : l.Pairwise (fun p q => p.1.data < q.1.data)) :
    (insertList l k v).Pairwise (fun p q => p.1.data < q.1.data) := by
  induction l with
  | nil => simp [insertList]
  | cons hd tl ih =>
    obtain ⟨k', v'⟩ := hd
    have htl := (List.pairwise_cons.1 hl).2
    have hhd := (List.pairwise_cons.1 hl).1
    simp only [insertList]
    split_ifs with h1 h2
    · refine List.pairwise_cons.2 ⟨?_, hl⟩
      intro q hq
      rcases List.mem_cons.1 hq with h | h
      · rw [h]; exact h1
      · exact lt_trans h1 (hhd q h)
    · refine List.pairwise_cons.2 ⟨?_, htl⟩
      intro q hq
      rw [h2]; exact hhd q hq
    · refine List.pairwise_cons.2 ⟨?_, ih htl⟩
      intro q hq
      rcases insertList_fst tl k v q hq with h | h
      · rw [h]
        exact lt_of_le_of_ne (not_lt.1 h1) (fun e => h2 (String.ext e.symm))
      · exact hhd q h

/-- The assignment `m[k] = v` on a non-nil map. -/
def set (m : GoMap V) (k : String) (v : V) : GoMap V :=
  ⟨insertList m.entries k v, insertList_ordered m.entries k v m.ordered⟩

/-- A loop over the keys `ks` that, at key `k`, performs `m[k] = v` when `W k = some v` and
writes nothing when `W k = none`. -/
def writes (W : String → Option V) (ks : List String) (m : GoMap V) : GoMap V :=
  ks.foldl (fun acc k =>
    match W k with
    | some v => acc.set k v
    | none => acc) m

instance [DecidableEq V] : DecidableEq (GoMap V) := fun a b =>
  match a, b with
  | ⟨ea, _⟩, ⟨eb, _⟩ =>
    if h : ea = eb then isTrue (by subst h; rfl) else isFalse (fun e => h (congrArg entries e))

end GoMap

/-! ## Generic Go operations on map-typed fields and pointers -/

/-- The keys a `range` loop (or `reflect.Value.MapKeys`) yields for a map-typed field; a nil map
yields none. -/
def mapKeys {V : Type} : Option (GoMap V) → List String
  | none => []
  | some m => m.keys

/-- The entry of a map-typed field under a key, `none` when the key is not there (or the map is
nil). -/
def mapLookup {V : Type} : Option (GoMap V) → String → Option V
  | none, _ => none
  | some m, k => m.lookup k

/-- The rule of `reflect.DeepEqual` for two maps: both nil or both non-nil, the same length, and
every key of the first is in the second with a deeply equal value. -/
def deepEqualMap {V : Type} (veq : V → V → Bool) : Option (GoMap V) → Option (GoMap V) → Bool
  | none, none => true
  | some m1, some m2 =>
    m1.len == m2.len &&
      m1.entries.all (fun p =>
        match m2.lookup p.1 with
        | some v2 => veq p.2 v2
        | none => false)
  | _, _ => false

/-- The rule of `reflect.DeepEqual` for two pointers: both nil, or both non-nil with deeply
equal pointees. -/
def deepEqualPtr {T : Type} (eq : T → T → Bool) : Option T → Option T → Bool
  | none, none => true
  | some x, some y => eq x y
  | _, _ => false

/-! ## CookbookVersion -/

/-- Modelled from the spec: the `CookbookVersion` struct (its file is not among the sources),
section 3 `VersionEntry`: three string fields and a map from dependency name to constraint. -/
structure CookbookVersion where
  LocationType : String
  LocationPath : String
  DownloadURL : String
  Dependencies : Option (GoMap String)
deriving DecidableEq

/-- Modelled from the spec: `NewCookbookVersion` (not among the sources), section 3: a fresh
entity has its scalar fields at the zero value and its map field empty and non-nil. -/
def NewCookbookVersion : CookbookVersion :=
  { LocationType := "", LocationPath := "", DownloadURL := "", Dependencies := some GoMap.empty }

/-- The rule of `reflect.DeepEqual` for two `CookbookVersion` structs: field by field. -/
def CookbookVersion.deepEqual (a b : CookbookVersion) : Bool :=
  a.LocationType == b.LocationType && a.LocationPath == b.LocationPath &&
    a.DownloadURL == b.DownloadURL &&
    deepEqualMap (fun x y : String => x == y) a.Dependencies b.Dependencies

/-- Modelled from the spec: `CookbookVersion.Equals` (not among the sources), section 4.1:
structural equality, with `equals(nil, nil) = true`; as `Cookbook.Equals` does, by
`reflect.DeepEqual` on the two pointers. -/
def CookbookVersion.Equals (a b : Option CookbookVersion) : Bool :=
  deepEqualPtr CookbookVersion.deepEqual a b

/-- Modelled from the spec: `CookbookVersion.Empty` (not among the sources), section 4.2: an
absent entity is empty; a present one is empty when every scalar field holds its zero value and
the map field is empty or holds only empty-valued entries. -/
def CookbookVersion.Empty : Option CookbookVersion → Bool
  | none => true
  | some v =>
    v.LocationType == "" && v.LocationPath == "" && v.DownloadURL == "" &&
      (mapKeys v.Dependencies).all (fun k =>
        match mapLookup v.Dependencies k with
        | some s => s == ""
        | none => true)

/-- Modelled from the spec: step 4 of the diff algorithm (section 4.3) on the `dependencies`
map of a version, whose values are leaf strings.  A key of the first map only is removed
(negative, verbatim); a key of both with different constraints is changed (the new constraint
positive, the old one negative); a key of the second map only is added (positive, verbatim). -/
def CookbookVersion.diffDeps (d1 d2 : Option (GoMap String)) : GoMap String × GoMap String :=
  let pos1 := GoMap.writes (fun k =>
    match mapLookup d1 k, mapLookup d2 k with
    | some x, some y => if x ≠ y then some y else none
    | _, _ => none) (mapKeys d1) GoMap.empty
  let neg1 := GoMap.writes (fun k =>
    match mapLookup d1 k, mapLookup d2 k with
    | some x, none => some x
    | some x, some y => if x ≠ y then some x else none
    | none, _ => none) (mapKeys d1) GoMap.empty
  let pos2 := GoMap.writes (fun k =>
    match mapLookup d1 k, mapLookup d2 k with
    | none, some y => some y
    | _, _ => none) (mapKeys d2) pos1
  (pos2, neg1)

/-- Modelled from the spec: `CookbookVersion.Diff` (not among the sources), section 4.3.
Equal arguments give `(absent, absent)`; otherwise two fresh entities take the scalar fields
that differ and the classified dependency keys, and each is replaced by absent when it is
empty.  The spec defines the operation on two present entities only: with exactly one absent
argument the model has no result (the Go method would dereference nil). -/
def CookbookVersion.Diff :
    Option CookbookVersion → Option CookbookVersion →
      Option (Option CookbookVersion × Option CookbookVersion)
  | none, none => some (none, none)
  | some a, some b =>
    if CookbookVersion.Equals (some a) (some b) then some (none, none)
    else
      let deps := CookbookVersion.diffDeps a.Dependencies b.Dependencies
      let pos : CookbookVersion :=
        { LocationType := if a.LocationType ≠ b.LocationType then b.LocationType
            else NewCookbookVersion.LocationType,
          LocationPath := if a.LocationPath ≠ b.LocationPath then b.LocationPath
            else NewCookbookVersion.LocationPath,
          DownloadURL := if a.DownloadURL ≠ b.DownloadURL then b.DownloadURL
            else NewCookbookVersion.DownloadURL,
          Dependencies := some deps.1 }
      let neg : CookbookVersion :=
        { LocationType := if a.LocationType ≠ b.LocationType then a.LocationType
            else NewCookbookVersion.LocationType,
          LocationPath := if a.LocationPath ≠ b.LocationPath then a.LocationPath
            else NewCookbookVersion.LocationPath,
          DownloadURL := if a.DownloadURL ≠ b.DownloadURL then a.DownloadURL
            else NewCookbookVersion.DownloadURL,
          Dependencies := some deps.2 }
      some (if CookbookVersion.Empty (some pos) then none else some pos,
            if CookbookVersion.Empty (some neg) then none else some neg)
  | _, _ => none

/-! ## Cookbook (universe/cookbook.go) -/

/-- The `Cookbook` struct: a name and a map from version string to `*CookbookVersion`. -/
structure Cookbook where
  Name : String
  Versions : Option (GoMap (Option CookbookVersion))
deriving DecidableEq

/-- `NewCookbook`: a pointer to a new struct whose `Versions` is the empty map literal. -/
def NewCookbook : Option Cookbook :=
  some { Name := "", Versions := some GoMap.empty }

/-- The index expression `c.Versions[k]`: the nil pointer when the key is not in the map. -/
def Cookbook.index (c : Cookbook) (k : String) : Option CookbookVersion :=
  match mapLookup c.Versions k with
  | some v => v
  | none => none

/-- The two-result index expression `v, ok := c.Versions[k]`: `none` when the key is not in
the map, `some none` when it is there with a nil value. -/
def Cookbook.entry (c : Cookbook) (k : String) : Option (Option CookbookVersion) :=
  mapLookup c.Versions k

/-- The assignment `c.Versions[k] = v`; a fault when `c.Versions` is the nil map. -/
def Cookbook.assign (c : Cookbook) (k : String) (v : Option CookbookVersion) : Option Cookbook :=
  match c.Versions with
  | none => none
  | some m => some { c with Versions := some (m.set k v) }

/-- `Cookbook.Empty`: true for the nil pointer; otherwise the field walk: a non-empty `Name`
clears the flag, and the first value of `Versions` that is not `Empty` returns false at once. -/
def Cookbook.Empty : Option Cookbook → Bool
  | none => true
  | some c =>
    let empty := if c.Name ≠ "" then false else true
    if (mapKeys c.Versions).any (fun k => !CookbookVersion.Empty (c.index k)) then false
    else empty

/-- The rule of `reflect.DeepEqual` for two `Cookbook` structs: field by field. -/
def Cookbook.deepEqual (a b : Cookbook) : Bool :=
  a.Name == b.Name && deepEqualMap CookbookVersion.Equals a.Versions b.Versions

/-- `Cookbook.Equals`: `reflect.DeepEqual` of the two pointers. -/
def Cookbook.Equals (c1 c2 : Option Cookbook) : Bool :=
  deepEqualPtr Cookbook.deepEqual c1 c2

/-- The first loop of `Cookbook.Diff`, `for k := range c1.Versions`, over the keys still to
visit, on the pair `(pos, neg)`. -/
def Cookbook.diffLoop1 (c1 c2 : Cookbook) :
    List String → Cookbook × Cookbook → Option (Cookbook × Cookbook)
  | [], st => some st
  | k :: ks, (pos, neg) =>
    if c2.index k = none then
      match neg.assign k (c1.index k) with
      | none => none
      | some neg1 => Cookbook.diffLoop1 c1 c2 ks (pos, neg1)
    else if !CookbookVersion.Equals (c1.index k) (c2.index k) then
      match CookbookVersion.Diff (c1.index k) (c2.index k) with
      | none => none
      | some (p, n) =>
        match pos.assign k p with
        | none => none
        | some pos1 =>
          match neg.assign k n with
          | none => none
          | some neg1 => Cookbook.diffLoop1 c1 c2 ks (pos1, neg1)
    else Cookbook.diffLoop1 c1 c2 ks (pos, neg)

/-- The second loop of `Cookbook.Diff`, `for k := range c2.Versions`, on `pos`. -/
def Cookbook.diffLoop2 (c1 c2 : Cookbook) : List String → Cookbook → Option Cookbook
  | [], pos => some pos
  | k :: ks, pos =>
    if c1.index k = none then
      match pos.assign k (c2.index k) with
      | none => none
      | some pos1 => Cookbook.diffLoop2 c1 c2 ks pos1
    else Cookbook.diffLoop2 c1 c2 ks pos

/-- The body of `Cookbook.Diff` between the equality test and the final emptiness tests: the
two fresh Cookbooks after the name comparison and both loops.  A fault when `c1` or `c2` is the
nil pointer (`c1.Name`, `c2.Name`). -/
def Cookbook.diffBuild : Option Cookbook → Option Cookbook → Option (Cookbook × Cookbook)
  | some c1, some c2 =>
    match NewCookbook, NewCookbook with
    | some pos, some neg =>
      let pos0 := if c1.Name ≠ c2.Name then { pos with Name := c2.Name } else pos
      let neg0 := if c1.Name ≠ c2.Name then { neg with Name := c1.Name } else neg
      match Cookbook.diffLoop1 c1 c2 (mapKeys c1.Versions) (pos0, neg0) with
      | none => none
      | some (pos1, neg1) =>
        match Cookbook.diffLoop2 c1 c2 (mapKeys c2.Versions) pos1 with
        | none => none
        | some pos2 => some (pos2, neg1)
    | _, _ => none
  | _, _ => none

/-- `Cookbook.Diff`: `(nil, nil)` when the two are `Equals`; otherwise the two Cookbooks built
by `diffBuild`, each replaced by nil when it is `Empty`. -/
def Cookbook.Diff (c1 c2 : Option Cookbook) : Option (Option Cookbook × Option Cookbook) :=
  if Cookbook.Equals c1 c2 then some (none, none)
  else
    match Cookbook.diffBuild c1 c2 with
    | none => none
    | some (pos, neg) =>
      some (if Cookbook.Empty (some pos) then none else some pos,
            if Cookbook.Empty (some neg) then none else some neg)

/-! ## Loop summaries

What each loop of `Cookbook.Diff` writes under a key, as a function of the key alone. -/

/-- What the first loop writes into `pos.Versions` at key `k` (`none`: nothing). -/
def Cookbook.posWrite1 (c1 c2 : Cookbook) (k : String) : Option (Option CookbookVersion) :=
  if c2.index k = none then none
  else if !CookbookVersion.Equals (c1.index k) (c2.index k) then
    match CookbookVersion.Diff (c1.index k) (c2.index k) with
    | some (p, _) => some p
    | none => none
  else none

/-- What the first loop writes into `neg.Versions` at key `k` (`none`: nothing). -/
def Cookbook.negWrite1 (c1 c2 : Cookbook) (k : String) : Option (Option CookbookVersion) :=
  if c2.index k = none then some (c1.index k)
  else if !CookbookVersion.Equals (c1.index k) (c2.index k) then
    match CookbookVersion.Diff (c1.index k) (c2.index k) with
    | some (_, n) => some n
    | none => none
  else none

/-- What the second loop writes into `pos.Versions` at key `k` (`none`: nothing). -/
def Cookbook.posWrite2 (c1 c2 : Cookbook) (k : String) : Option (Option CookbookVersion) :=
  if c1.index k = none then some (c2.index k) else none

/-- The entry of the built `pos.Versions` under `k`, from the two loops. -/
def Cookbook.posAt (c1 c2 : Cookbook) (k : String) : Option (Option CookbookVersion) :=
  if k ∈ mapKeys c2.Versions ∧ c1.index k = none then some (c2.index k)
  else if k ∈ mapKeys c1.Versions then Cookbook.posWrite1 c1 c2 k
  else none

/-- The entry of the built `neg.Versions` under `k`, from the first loop. -/
def Cookbook.negAt (c1 c2 : Cookbook) (k : String) : Option (Option CookbookVersion) :=
  if k ∈ mapKeys c1.Versions then Cookbook.negWrite1 c1 c2 k else none

/-- The `pos` that `Cookbook.Diff` has built before its emptiness tests, when no step faults. -/
def Cookbook.builtPos (c1 c2 : Cookbook) : Cookbook :=
  { Name := if c1.Name ≠ c2.Name then c2.Name else "",
    Versions := some (GoMap.writes (Cookbook.posWrite2 c1 c2) (mapKeys c2.Versions)
      (GoMap.writes (Cookbook.posWrite1 c1 c2) (mapKeys c1.Versions) GoMap.empty)) }

/-- The `neg` that `Cookbook.Diff` has built before its emptiness tests, when no step faults. -/
def Cookbook.builtNeg (c1 c2 : Cookbook) : Cookbook :=
  { Name := if c1.Name ≠ c2.Name then c1.Name else "",
    Versions := some (GoMap.writes (Cookbook.negWrite1 c1 c2) (mapKeys c1.Versions)
      GoMap.empty) }

/-- No iteration of the first loop over `ks` calls `Diff` on a nil version with a present
argument. -/
def Cookbook.NoNilReceiver (c1 c2 : Cookbook) (ks : List String) : Prop :=
  ∀ k ∈ ks, c2.index k ≠ none → c1.index k ≠ none

instance (c1 c2 : Cookbook) (ks : List String) : Decidable (Cookbook.NoNilReceiver c1 c2 ks) :=
  inferInstanceAs (Decidable (∀ k ∈ ks, c2.index k ≠ none → c1.index k ≠ none))

/-- Every key of `c.Versions` holds a present (non-nil) version. -/
def Cookbook.NoNilValues (c : Cookbook) : Prop :=
  ∀ k ∈ mapKeys c.Versions, c.index k ≠ none

instance (c : Cookbook) : Decidable (Cookbook.NoNilValues c) :=
  inferInstanceAs (Decidable (∀ k ∈ mapKeys c.Versions, c.index k ≠ none))

/-! ## The four classes of a key -/

/-- The key is in both maps and the two values are `Equals`. -/
def Cookbook.Unchanged (a b : Cookbook) (k : String) : Prop :=
  k ∈ mapKeys a.Versions ∧ k ∈ mapKeys b.Versions ∧
    CookbookVersion.Equals (a.index k) (b.index k) = true

/-- The key is in the second map only. -/
def Cookbook.Added (a b : Cookbook) (k : String) : Prop :=
  k ∉ mapKeys a.Versions ∧ k ∈ mapKeys b.Versions

/-- The key is in the first map only. -/
def Cookbook.Removed (a b : Cookbook) (k : String) : Prop :=
  k ∈ mapKeys a.Versions ∧ k ∉ mapKeys b.Versions

/-- The key is in both maps and the two values are not `Equals`. -/
def Cookbook.Changed (a b : Cookbook) (k : String) : Prop :=
  k ∈ mapKeys a.Versions ∧ k ∈ mapKeys b.Versions ∧
    CookbookVersion.Equals (a.index k) (b.index k) = false

instance (a b : Cookbook) (k : String) : Decidable (Cookbook.Unchanged a b k) :=
  inferInstanceAs (Decidable (_ ∧ _ ∧ _))

instance (a b : Cookbook) (k : String) : Decidable (Cookbook.Added a b k) :=
  inferInstanceAs (Decidable (_ ∧ _))

instance (a b : Cookbook) (k : String) : Decidable (Cookbook.Removed a b k) :=
  inferInstanceAs (Decidable (_ ∧ _))

instance (a b : Cookbook) (k : String) : Decidable (Cookbook.Changed a b k) :=
  inferInstanceAs (Decidable (_ ∧ _ ∧ _))

/-- The key `k` is in exactly one of the four classes, and the built maps `pos.Versions` and
`neg.Versions` reflect the class: an unchanged key is in neither; an added key is in `pos` only,
with the value of `b`; a removed key is in `neg` only, with the value of `a`; a changed key is
in both, with the two halves of the version-level diff. -/
def Cookbook.KeyAccounted (a b pos neg : Cookbook) (k : String) : Prop :=
  ((Cookbook.Unchanged a b k ∧ ¬ Cookbook.Added a b k ∧ ¬ Cookbook.Removed a b k ∧
        ¬ Cookbook.Changed a b k) ∨
      (¬ Cookbook.Unchanged a b k ∧ Cookbook.Added a b k ∧ ¬ Cookbook.Removed a b k ∧
        ¬ Cookbook.Changed a b k) ∨
      (¬ Cookbook.Unchanged a b k ∧ ¬ Cookbook.Added a b k ∧ Cookbook.Removed a b k ∧
        ¬ Cookbook.Changed a b k) ∨
      (¬ Cookbook.Unchanged a b k ∧ ¬ Cookbook.Added a b k ∧ ¬ Cookbook.Removed a b k ∧
        Cookbook.Changed a b k)) ∧
    (Cookbook.Unchanged a b k → pos.entry k = none ∧ neg.entry k = none) ∧
    (Cookbook.Added a b k → pos.entry k = b.entry k ∧ neg.entry k = none) ∧
    (Cookbook.Removed a b k → pos.entry k = none ∧ neg.entry k = a.entry k) ∧
    (Cookbook.Changed a b k →
      ∃ p n, CookbookVersion.Diff (a.index k) (b.index k) = some (p, n) ∧
        pos.entry k = some p ∧ neg.entry k = some n)

/-! ## Test data -/

/-- A version with no dependencies. -/
def vPlain : CookbookVersion :=
  { LocationType := "opscode", LocationPath := "https://supermarket.getchef.com/api/v1",
    DownloadURL := "https://example.com/download", Dependencies := some GoMap.empty }

/-- A version depending on zlib. -/
def vZlib (c : String) : CookbookVersion :=
  { vPlain with Dependencies := some (GoMap.empty.set "zlib" c) }

/-- A Cookbook from a name and a list of entries written in turn into an empty map. -/
def mkCookbook (name : String) (vs : List (String × Option CookbookVersion)) : Cookbook :=
  { Name := name, Versions := some (vs.foldl (fun m p => m.set p.1 p.2) GoMap.empty) }

/-- The zero Cookbook `Cookbook{}`: empty name, nil map. -/
def cbNilMap : Cookbook := { Name := "", Versions := none }

/-- The Cookbook that `NewCookbook` points to: empty name, empty non-nil map. -/
def cbEmptyMap : Cookbook := { Name := "", Versions := some GoMap.empty }

/-- Scenario 1: package "chef-dk" with the one version "2.0.1" and no dependencies. -/
def chefDk : Cookbook := mkCookbook "chef-dk" [("2.0.1", some vPlain)]

/-- Scenario 2, first snapshot: one version. -/
def cbOne : Cookbook := mkCookbook "zlib" [("1.0.0", some vPlain)]

/-- A snapshot with an unchanged, a changed and a removed version. -/
def cbOld : Cookbook :=
  mkCookbook "zlib" [("1.0.0", some vPlain), ("1.1.0", some (vZlib ">= 1.0")),
    ("1.2.0", some vPlain)]

/-- The later snapshot: "1.1.0" has a new constraint, "1.2.0" is gone, "2.0.0" is new. -/
def cbNew : Cookbook :=
  mkCookbook "zlib" [("1.0.0", some vPlain), ("1.1.0", some (vZlib ">= 2.0")),
    ("2.0.0", some vPlain)]

/-- A snapshot whose one key holds a nil version. -/
def cbNilA : Cookbook := mkCookbook "zlib" [("1.0.0", none)]

/-- The snapshot `cbNilA` with one more key, holding a present version. -/
def cbNilB : Cookbook := mkCookbook "zlib" [("1.0.0", none), ("1.1.0", some vPlain)]

/-- A version-level diff half that holds nothing but one zlib constraint. -/
def depOnly (c : String) : CookbookVersion :=
  { NewCookbookVersion with Dependencies := some (GoMap.empty.set "zlib" c) }

/-- A snapshot with a nil version under "0.9.0" and zlib ">= 1.0" in version "1.0.0". -/
def cbNilC : Cookbook :=
  mkCookbook "zlib" [("0.9.0", none), ("1.0.0", some (vZlib ">= 1.0"))]

/-- The snapshot `cbNilC` with the zlib constraint of "1.0.0" changed to ">= 2.0". -/
def cbNilD : Cookbook :=
  mkCookbook "zlib" [("0.9.0", none), ("1.0.0", some (vZlib ">= 2.0"))]

/-- Scenario 4, first snapshot: version "1.0.0" depends on zlib ">= 1.0". -/
def cbZlib1 : Cookbook := mkCookbook "zlib" [("1.0.0", some (vZlib ">= 1.0"))]

/-- Scenario 4, second snapshot: version "1.0.0" depends on zlib ">= 2.0". -/
def cbZlib2 : Cookbook := mkCookbook "zlib" [("1.0.0", some (vZlib ">= 2.0"))]

/-- Package "foo" whose one key holds a nil version. -/
def cbFooNil : Cookbook := mkCookbook "foo" [("1.0.0", none)]

/-- Package "bar" with the same `Versions` as `cbFooNil`. -/
def cbBarNil : Cookbook := mkCookbook "bar" [("1.0.0", none)]

/-- Scenario 5, first snapshot: package "foo". -/
def cbFoo : Cookbook := mkCookbook "foo" [("1.0.0", some vPlain)]

/-- Scenario 5, second snapshot: package "bar" with the same versions. -/
def cbBar : Cookbook := mkCookbook "bar" [("1.0.0", some vPlain)]

/-- A snapshot with two versions, the second without dependencies. -/
def cbDepA : Cookbook :=
  mkCookbook "zlib" [("1.0.0", some (vZlib ">= 1.0")), ("1.1.0", some vPlain)]

/-- The later snapshot: "1.0.0" has a changed constraint, "1.1.0" has gained a dependency. -/
def cbDepB : Cookbook :=
  mkCookbook "zlib" [("1.0.0", some (vZlib ">= 2.0")), ("1.1.0", some (vZlib ">= 1.0"))]

/-- Scenario 2, second snapshot: the same version and a new one. -/
def cbTwo : Cookbook :=
  mkCookbook "zlib" [("1.0.0", some vPlain), ("1.1.0", some (vZlib ">= 1.0"))]

/-- A Cookbook with an empty name whose one version is the zero `CookbookVersion`. -/
def cbEmptyVersions : Cookbook := mkCookbook "" [("1.0.0", some NewCookbookVersion)]

/-- A snapshot whose one version is present. -/
def cbPresent : Cookbook := mkCookbook "zlib" [("1.0.0", some vPlain)]

/-- The snapshot `cbPresent` with a nil value under the same key. -/
def cbNilled : Cookbook := mkCookbook "zlib" [("1.0.0", none)]

/-- An empty Cookbook whose one key holds a nil version. -/
def cbEmptyNil : Cookbook := mkCookbook "" [("1.0.0", none)]

/-! ## Enumeration orders

Go leaves the order of `range` over a map and of `reflect.Value.MapKeys` open.  The variants
below take, for each place where `cookbook.go` enumerates a map, the order that enumeration
uses: a function from the key list of the model to the list of keys as visited. -/

/-- An enumeration order visits every key of the list exactly as often as it occurs: its
result is a rearrangement of the key list. -/
def IsOrder (o : List String → List String) : Prop := ∀ ks, (o ks).Perm ks

/-- The map rule of `reflect.DeepEqual`, with the keys of the first map (`v1.MapKeys()`)
visited in the order `o`: each key is looked up in both maps. -/
def deepEqualMapIn {V : Type} (o : List String → List String) (veq : V → V → Bool) :
    Option (GoMap V) → Option (GoMap V) → Bool
  | none, none => true
  | some m1, some m2 =>
    m1.len == m2.len &&
      (o m1.keys).all (fun k =>
        match m1.lookup k, m2.lookup k with
        | some v1, some v2 => veq v1 v2
        | _, _ => false)
  | _, _ => false

/-- `Cookbook.Equals`, with the keys of `Versions` enumerated in the order `o`. -/
def Cookbook.EqualsIn (o : List String → List String) (c1 c2 : Option Cookbook) : Bool :=
  deepEqualPtr (fun a b =>
    a.Name == b.Name && deepEqualMapIn o CookbookVersion.Equals a.Versions b.Versions) c1 c2

/-- `Cookbook.Empty`, with `f.MapKeys()` yielding the keys in the order `o`. -/
def Cookbook.EmptyIn (o : List String → List String) : Option Cookbook → Bool
  | none => true
  | some c =>
    let empty := if c.Name ≠ "" then false else true
    if (o (mapKeys c.Versions)).any (fun k => !CookbookVersion.Empty (c.index k)) then false
    else empty

/-- The body of `Cookbook.Diff` up to the emptiness tests, with the first `range` loop in the
order `o1` and the second in the order `o2`. -/
def Cookbook.diffBuildIn (o1 o2 : List String → List String) :
    Option Cookbook → Option Cookbook → Option (Cookbook × Cookbook)
  | some c1, some c2 =>
    match NewCookbook, NewCookbook with
    | some pos, some neg =>
      let pos0 := if c1.Name ≠ c2.Name then { pos with Name := c2.Name } else pos
      let neg0 := if c1.Name ≠ c2.Name then { neg with Name := c1.Name } else neg
      match Cookbook.diffLoop1 c1 c2 (o1 (mapKeys c1.Versions)) (pos0, neg0) with
      | none => none
      | some (pos1, neg1) =>
        match Cookbook.diffLoop2 c1 c2 (o2 (mapKeys c2.Versions)) pos1 with
        | none => none
        | some pos2 => some (pos2, neg1)
    | _, _ => none
  | _, _ => none

/-- `Cookbook.Diff` with every map enumeration in an order of its own: `oE` in `Equals`, `o1`
and `o2` in the two `range` loops, `oP` in `pos.Empty()` and `oN` in `neg.Empty()`. -/
def Cookbook.DiffIn (oE o1 o2 oP oN : List String → List String)
    (c1 c2 : Option Cookbook) : Option (Option Cookbook × Option Cookbook) :=
  if Cookbook.EqualsIn oE c1 c2 then some (none, none)
  else
    match Cookbook.diffBuildIn o1 o2 c1 c2 with
    | none => none
    | some (pos, neg) =>
      some (if Cookbook.EmptyIn oP (some pos) then none else some pos,
            if Cookbook.EmptyIn oN (some neg) then none else some neg)

/-! ## Adding an entry -/

/-- The Cookbook `c` with the entry `k -> v` added to its `Versions` (a nil map counts as
having no entries). -/
def Cookbook.withEntry (c : Cookbook) (k : String) (v : Option CookbookVersion) : Cookbook :=
  { c with
    Versions := some ((match c.Versions with
      | some m => m
      | none => GoMap.empty).set k v) }

/-! ## Zero entities -/

/-- The absent or zero Cookbook: the nil pointer, or a Cookbook with an empty name and no
versions (a nil or an empty map). -/
def Cookbook.IsZero : Option Cookbook → Prop
  | none => True
  | some c => c.Name = "" ∧ mapKeys c.Versions = []

instance : (x : Option Cookbook) → Decidable (Cookbook.IsZero x)
  | none => isTrue trivial
  | some c => inferInstanceAs (Decidable (c.Name = "" ∧ mapKeys c.Versions = []))

/-- A present Cookbook with an empty name and one or more versions, every one of them `Empty`:
not the zero entity, since it holds versions. -/
def Cookbook.OnlyEmptyVersions : Option Cookbook → Prop
  | none => False
  | some c =>
    c.Name = "" ∧ mapKeys c.Versions ≠ [] ∧
      ∀ k ∈ mapKeys c.Versions, CookbookVersion.Empty (c.index k) = true

instance : (x : Option Cookbook) → Decidable (Cookbook.OnlyEmptyVersions x)
  | none => isFalse (fun h => h)
  | some c =>
    inferInstanceAs
      (Decidable (c.Name = "" ∧ mapKeys c.Versions ≠ [] ∧
        ∀ k ∈ mapKeys c.Versions, CookbookVersion.Empty (c.index k) = true))

/-! ## Lemmas on Go maps -/

namespace GoMap

variable {V : Type}

theorem lookupList_insertList (l : List (String × V)) (k k' : String) (v : V) :
    lookupList (insertList l k v) k' = if k' = k then some v else lookupList l k' := by
  induction l with
  | nil => simp [insertList, lookupList]
  | cons hd tl ih =>
    obtain ⟨kh, vh⟩ := hd
    by_cases hk : k' = k
    · subst hk
      simp only [insertList, if_true]
      split_ifs with h1 h2
      · simp [lookupList]
      · simp [lookupList]
      · simp only [lookupList, if_neg h2, ih, if_true]
    · simp only [insertList, if_neg hk]
      split_ifs with h1 h2
      · simp [lookupList, hk]
      · subst h2; simp [lookupList, hk]
      · simp only [lookupList, ih, if_neg hk]

theorem lookup_set (m : GoMap V) (k k' : String) (v : V) :
    (m.set k v).lookup k' = if k' = k then some v else m.lookup k' :=
  lookupList_insertList m.entries k k' v

theorem lookup_set_self (m : GoMap V) (k : String) (v : V) : (m.set k v).lookup k = some v := by
  rw [lookup_set, if_pos rfl]

theorem lookup_set_ne (m : GoMap V) {k k' : String} (v : V) (h : k' ≠ k) :
    (m.set k v).lookup k' = m.lookup k' := by
  rw [lookup_set, if_neg h]

theorem lookup_empty (k : String) : (empty : GoMap V).lookup k = none := rfl

theorem lookupList_eq_none_iff (l : List (String × V)) (k : String) :
    lookupList l k = none ↔ k ∉ l.map Prod.fst := by
  induction l with
  | nil => simp [lookupList]
  | cons hd tl ih =>
    obtain ⟨kh, vh⟩ := hd
    by_cases h : k = kh
    · simp [lookupList, h]
    · simp only [lookupList, if_neg h, ih, List.map_cons, List.mem_cons, not_or]
      exact ⟨fun h' => ⟨h, h'⟩, fun h' => h'.2⟩

theorem lookup_eq_none_iff (m : GoMap V) (k : String) : m.lookup k = none ↔ k ∉ m.keys :=
  lookupList_eq_none_iff m.entries k

theorem mem_keys_iff (m : GoMap V) (k : String) : k ∈ m.keys ↔ ∃ v, m.lookup k = some v := by
  rw [← Option.isSome_iff_exists, ← Option.ne_none_iff_isSome, Ne, lookup_eq_none_iff, not_not]

theorem lookupList_eq_some_iff (l : List (String × V))
    (hl : l.Pairwise (fun p q => p.1.data < q.1.data)) (k : String) (v : V) :
    lookupList l k = some v ↔ (k, v) ∈ l := by
  induction l with
  | nil => simp [lookupList]
  | cons hd tl ih =>
    obtain ⟨kh, vh⟩ := hd
    have htl := (List.pairwise_cons.1 hl).2
    have hhd := (List.pairwise_cons.1 hl).1
    by_cases h : k = kh
    · subst h
      simp only [lookupList, if_true, List.mem_cons, Prod.mk.injEq, true_and, Option.some.injEq]
      constructor
      · intro e; left; exact e.symm
      · rintro (e | e)
        · exact e.symm
        · exact absurd (hhd _ e) (lt_irrefl _)
    · simp only [lookupList, if_neg h, ih htl, List.mem_cons, Prod.mk.injEq]
      constructor
      · intro e; right; exact e
      · rintro (e | e)
        · exact absurd e.1 h
        · exact e

theorem lookup_eq_some_iff (m : GoMap V) (k : String) (v : V) :
    m.lookup k = some v ↔ (k, v) ∈ m.entries :=
  lookupList_eq_some_iff m.entries m.ordered k v

theorem entries_nodup (m : GoMap V) : m.entries.Nodup := by
  refine List.Pairwise.imp ?_ m.ordered
  intro a b h e
  rw [e] at h
  exact lt_irrefl _ h

theorem keys_nodup (m : GoMap V) : m.keys.Nodup := by
  unfold keys
  unfold List.Nodup
  rw [List.pairwise_map]
  refine List.Pairwise.imp ?_ m.ordered
  intro a b h e
  rw [e] at h
  exact lt_irrefl _ h

theorem eq_of_entries_eq {m1 m2 : GoMap V} (h : m1.entries = m2.entries) : m1 = m2 := by
  cases m1; cases m2; cases h; rfl

/-- Two Go maps with the same entry under every key are the same map. -/
theorem ext_lookup {m1 m2 : GoMap V} (h : ∀ k, m1.lookup k = m2.lookup k) : m1 = m2 := by
  apply eq_of_entries_eq
  haveI : IsAntisymm (String × V) (fun p q => p.1.data < q.1.data) :=
    ⟨fun a b h1 h2 => absurd h1 (lt_asymm h2)⟩
  refine List.eq_of_perm_of_sorted ?_ m1.ordered m2.ordered
  refine (List.perm_ext_iff_of_nodup m1.entries_nodup m2.entries_nodup).2 ?_
  rintro ⟨k, v⟩
  rw [← lookup_eq_some_iff, ← lookup_eq_some_iff, h]

theorem keys_empty : (empty : GoMap V).keys = [] := rfl

end GoMap

/-! ## `reflect.DeepEqual` on the model is equality -/

theorem GoMap.eq_of_subset_of_len {V : Type} {m1 m2 : GoMap V}
    (hsub : m1.entries ⊆ m2.entries) (hlen : m1.len = m2.len) : m1 = m2 := by
  apply GoMap.eq_of_entries_eq
  haveI : IsAntisymm (String × V) (fun p q => p.1.data < q.1.data) :=
    ⟨fun a b h1 h2 => absurd h1 (lt_asymm h2)⟩
  refine List.eq_of_perm_of_sorted ?_ m1.ordered m2.ordered
  exact (List.subperm_of_subset m1.entries_nodup hsub).perm_of_length_le (le_of_eq hlen.symm)

theorem deepEqualMap_iff {V : Type} (veq : V → V → Bool)
    (hveq : ∀ x y, veq x y = true ↔ x = y) (a b : Option (GoMap V)) :
    deepEqualMap veq a b = true ↔ a = b := by
  cases a with
  | none => cases b <;> simp [deepEqualMap]
  | some m1 =>
    cases b with
    | none => simp [deepEqualMap]
    | some m2 =>
      simp only [deepEqualMap, Bool.and_eq_true, beq_iff_eq, List.all_eq_true, Option.some.injEq]
      constructor
      · rintro ⟨hlen, hall⟩
        refine GoMap.eq_of_subset_of_len ?_ hlen
        rintro ⟨k, v⟩ hp
        have h := hall (k, v) hp
        simp only at h
        cases hl : m2.lookup k with
        | none => rw [hl] at h; exact absurd h (by simp)
        | some v2 =>
          rw [hl] at h
          simp only at h
          rw [(hveq v v2).1 h]
          exact (GoMap.lookup_eq_some_iff m2 k v2).1 hl
      · intro e
        subst e
        refine ⟨rfl, ?_⟩
        rintro ⟨k, v⟩ hp
        rw [(GoMap.lookup_eq_some_iff m1 k v).2 hp]
        exact (hveq v v).2 rfl

theorem deepEqualPtr_iff {T : Type} (eq : T → T → Bool)
    (heq : ∀ x y, eq x y = true ↔ x = y) (a b : Option T) :
    deepEqualPtr eq a b = true ↔ a = b := by
  cases a <;> cases b <;> simp [deepEqualPtr, heq]

theorem CookbookVersion.vDeepEqual_iff (a b : CookbookVersion) :
    CookbookVersion.deepEqual a b = true ↔ a = b := by
  obtain ⟨a1, a2, a3, a4⟩ := a
  obtain ⟨b1, b2, b3, b4⟩ := b
  simp only [CookbookVersion.deepEqual, Bool.and_eq_true, beq_iff_eq,
    deepEqualMap_iff (fun x y : String => x == y) (fun x y => beq_iff_eq) a4 b4,
    CookbookVersion.mk.injEq, and_assoc]

theorem CookbookVersion.vEquals_iff (a b : Option CookbookVersion) :
    CookbookVersion.Equals a b = true ↔ a = b :=
  deepEqualPtr_iff _ CookbookVersion.vDeepEqual_iff a b

theorem Cookbook.deepEqual_iff (a b : Cookbook) : Cookbook.deepEqual a b = true ↔ a = b := by
  obtain ⟨a1, a2⟩ := a
  obtain ⟨b1, b2⟩ := b
  simp only [Cookbook.deepEqual, Bool.and_eq_true, beq_iff_eq,
    deepEqualMap_iff CookbookVersion.Equals CookbookVersion.vEquals_iff a2 b2,
    Cookbook.mk.injEq]

theorem Cookbook.Equals_iff (a b : Option Cookbook) : Cookbook.Equals a b = true ↔ a = b :=
  deepEqualPtr_iff _ Cookbook.deepEqual_iff a b

theorem Cookbook.Equals_self (a : Option Cookbook) : Cookbook.Equals a a = true :=
  (Cookbook.Equals_iff a a).2 rfl

theorem Cookbook.Equals_eq_false {a b : Option Cookbook} (h : a ≠ b) :
    Cookbook.Equals a b = false := by
  cases e : Cookbook.Equals a b with
  | false => rfl
  | true => exact absurd ((Cookbook.Equals_iff a b).1 e) h

theorem CookbookVersion.vEquals_eq_false {a b : Option CookbookVersion} (h : a ≠ b) :
    CookbookVersion.Equals a b = false := by
  cases e : CookbookVersion.Equals a b with
  | false => rfl
  | true => exact absurd ((CookbookVersion.vEquals_iff a b).1 e) h

/-! ## The loops of `Diff` as key-wise writes -/

namespace GoMap

variable {V : Type}

theorem writes_nil (W : String → Option V) (m : GoMap V) : writes W [] m = m := rfl

theorem writes_cons (W : String → Option V) (k : String) (ks : List String) (m : GoMap V) :
    writes W (k :: ks) m =
      writes W ks (match W k with
        | some v => m.set k v
        | none => m) := rfl

theorem lookup_writes_of_not_mem (W : String → Option V) (ks : List String) (m : GoMap V)
    (k : String) (h : k ∉ ks) : (writes W ks m).lookup k = m.lookup k := by
  induction ks generalizing m with
  | nil => rfl
  | cons hd tl ih =>
    rw [writes_cons, ih _ (fun e => h (List.mem_cons_of_mem _ e))]
    have hne : k ≠ hd := fun e => h (e ▸ List.mem_cons_self _ _)
    cases W hd with
    | none => rfl
    | some v => exact lookup_set_ne m v hne

theorem lookup_writes_of_none (W : String → Option V) (ks : List String) (m : GoMap V)
    (k : String) (h : W k = none) : (writes W ks m).lookup k = m.lookup k := by
  induction ks generalizing m with
  | nil => rfl
  | cons hd tl ih =>
    rw [writes_cons, ih]
    by_cases hk : k = hd
    · subst hk; rw [h]
    · cases W hd with
      | none => rfl
      | some v => exact lookup_set_ne m v hk

theorem lookup_writes_of_some (W : String → Option V) (ks : List String) (m : GoMap V)
    (k : String) (v : V) (hmem : k ∈ ks) (h : W k = some v) :
    (writes W ks m).lookup k = some v := by
  induction ks generalizing m with
  | nil => exact absurd hmem (List.not_mem_nil _)
  | cons hd tl ih =>
    rw [writes_cons]
    by_cases htl : k ∈ tl
    · exact ih _ htl
    · rw [lookup_writes_of_not_mem W tl _ k htl]
      rcases List.mem_cons.1 hmem with e | e
      · subst e; rw [h]; exact lookup_set_self m k v
      · exact absurd e htl

/-- The entry under `k` after a `writes` loop. -/
theorem lookup_writes (W : String → Option V) (ks : List String) (m : GoMap V) (k : String) :
    (writes W ks m).lookup k =
      if k ∈ ks then
        (match W k with
          | some v => some v
          | none => m.lookup k)
      else m.lookup k := by
  by_cases hmem : k ∈ ks
  · rw [if_pos hmem]
    cases h : W k with
    | none => exact lookup_writes_of_none W ks m k h
    | some v => exact lookup_writes_of_some W ks m k v hmem h
  · rw [if_neg hmem]; exact lookup_writes_of_not_mem W ks m k hmem

end GoMap

theorem mem_mapKeys_iff {V : Type} (m : Option (GoMap V)) (k : String) :
    k ∈ mapKeys m ↔ ∃ v, mapLookup m k = some v := by
  cases m with
  | none => simp [mapKeys, mapLookup]
  | some m => exact GoMap.mem_keys_iff m k

theorem mapLookup_eq_none_iff {V : Type} (m : Option (GoMap V)) (k : String) :
    mapLookup m k = none ↔ k ∉ mapKeys m := by
  cases m with
  | none => simp [mapKeys, mapLookup]
  | some m => exact GoMap.lookup_eq_none_iff m k

theorem Cookbook.index_of_not_mem (c : Cookbook) (k : String) (h : k ∉ mapKeys c.Versions) :
    c.index k = none := by
  unfold Cookbook.index
  rw [(mapLookup_eq_none_iff c.Versions k).2 h]

theorem Cookbook.mem_of_index_ne_none (c : Cookbook) (k : String) (h : c.index k ≠ none) :
    k ∈ mapKeys c.Versions := by
  by_contra hk
  exact h (c.index_of_not_mem k hk)

theorem Cookbook.assign_some (c : Cookbook) (m : GoMap (Option CookbookVersion))
    (h : c.Versions = some m) (k : String) (v : Option CookbookVersion) :
    c.assign k v = some { c with Versions := some (m.set k v) } := by
  unfold Cookbook.assign
  rw [h]

/-- The version-level `Diff` has a result exactly when it is not called with one nil and one
present argument. -/
theorem CookbookVersion.Diff_isSome (x y : CookbookVersion) :
    ∃ p n, CookbookVersion.Diff (some x) (some y) = some (p, n) := by
  have h : CookbookVersion.Diff (some x) (some y) ≠ none := by
    simp only [CookbookVersion.Diff]
    split_ifs <;> simp
  obtain ⟨⟨p, n⟩, hpn⟩ := Option.ne_none_iff_exists'.1 h
  exact ⟨p, n, hpn⟩

/-- The first loop, when no iteration faults: both maps are the key-wise writes. -/
theorem Cookbook.diffLoop1_eq (c1 c2 : Cookbook) (ks : List String)
    (pos neg : Cookbook) (pm nm : GoMap (Option CookbookVersion))
    (hp : pos.Versions = some pm) (hn : neg.Versions = some nm)
    (hok : Cookbook.NoNilReceiver c1 c2 ks) :
    Cookbook.diffLoop1 c1 c2 ks (pos, neg) =
      some ({ pos with Versions := some (GoMap.writes (Cookbook.posWrite1 c1 c2) ks pm) },
            { neg with Versions := some (GoMap.writes (Cookbook.negWrite1 c1 c2) ks nm) }) := by
  induction ks generalizing pos neg pm nm with
  | nil =>
    simp only [Cookbook.diffLoop1, GoMap.writes_nil, ← hp, ← hn]
  | cons k ks ih =>
    have hok' : Cookbook.NoNilReceiver c1 c2 ks := fun x hx => hok x (List.mem_cons_of_mem _ hx)
    simp only [Cookbook.diffLoop1, GoMap.writes_cons]
    by_cases h2 : c2.index k = none
    · rw [if_pos h2, Cookbook.assign_some neg nm hn]
      simp only [Cookbook.posWrite1, Cookbook.negWrite1, if_pos h2]
      exact ih pos _ pm _ hp rfl hok'
    · rw [if_neg h2]
      have h1 : c1.index k ≠ none := hok k (List.mem_cons_self _ _) h2
      by_cases he : CookbookVersion.Equals (c1.index k) (c2.index k) = true
      · simp only [Cookbook.posWrite1, Cookbook.negWrite1, if_neg h2, he, Bool.not_true,
          Bool.false_eq_true, if_false]
        exact ih pos neg pm nm hp hn hok'
      · obtain ⟨x, hx⟩ := Option.ne_none_iff_exists'.1 h1
        obtain ⟨y, hy⟩ := Option.ne_none_iff_exists'.1 h2
        obtain ⟨p, n, hd⟩ := CookbookVersion.Diff_isSome x y
        have he' : CookbookVersion.Equals (c1.index k) (c2.index k) = false := by
          simpa using he
        simp only [Cookbook.posWrite1, Cookbook.negWrite1, if_neg h2, he', Bool.not_false,
          if_true]
        rw [hx, hy, hd]
        simp only
        rw [Cookbook.assign_some pos pm hp, Cookbook.assign_some neg nm hn]
        exact ih { pos with Versions := some (pm.set k p) }
          { neg with Versions := some (nm.set k n) } (pm.set k p) (nm.set k n) rfl rfl hok'

/-- The second loop never faults on a `pos` with a non-nil map. -/
theorem Cookbook.diffLoop2_eq (c1 c2 : Cookbook) (ks : List String)
    (pos : Cookbook) (pm : GoMap (Option CookbookVersion)) (hp : pos.Versions = some pm) :
    Cookbook.diffLoop2 c1 c2 ks pos =
      some { pos with Versions := some (GoMap.writes (Cookbook.posWrite2 c1 c2) ks pm) } := by
  induction ks generalizing pos pm with
  | nil => simp only [Cookbook.diffLoop2, GoMap.writes_nil, ← hp]
  | cons k ks ih =>
    simp only [Cookbook.diffLoop2, GoMap.writes_cons]
    by_cases h1 : c1.index k = none
    · rw [if_pos h1, Cookbook.assign_some pos pm hp]
      simp only [Cookbook.posWrite2, if_pos h1]
      exact ih _ _ rfl
    · rw [if_neg h1]
      simp only [Cookbook.posWrite2, if_neg h1]
      exact ih pos pm hp

/-- The first loop faults when some key holds nil in `c1` and a present version in `c2`. -/
theorem Cookbook.diffLoop1_fault (c1 c2 : Cookbook) (ks : List String)
    (h : ∃ k ∈ ks, c2.index k ≠ none ∧ c1.index k = none) (st : Cookbook × Cookbook) :
    Cookbook.diffLoop1 c1 c2 ks st = none := by
  induction ks generalizing st with
  | nil =>
    obtain ⟨k, hk, _⟩ := h
    exact absurd hk (List.not_mem_nil _)
  | cons k0 ks ih =>
    obtain ⟨pos, neg⟩ := st
    by_cases htl : ∃ k ∈ ks, c2.index k ≠ none ∧ c1.index k = none
    · simp only [Cookbook.diffLoop1]
      split_ifs
      · cases neg.assign k0 (c1.index k0) with
        | none => rfl
        | some neg1 => exact ih htl _
      · cases CookbookVersion.Diff (c1.index k0) (c2.index k0) with
        | none => rfl
        | some pn =>
          obtain ⟨p, n⟩ := pn
          simp only
          cases pos.assign k0 p with
          | none => rfl
          | some pos1 =>
            cases neg.assign k0 n with
            | none => rfl
            | some neg1 => exact ih htl _
      · exact ih htl _
    · obtain ⟨k, hk, h2, h1⟩ := h
      rcases List.mem_cons.1 hk with e | e
      · subst e
        obtain ⟨y, hy⟩ := Option.ne_none_iff_exists'.1 h2
        simp only [Cookbook.diffLoop1, if_neg h2, h1, hy]
        simp [CookbookVersion.Equals, deepEqualPtr, CookbookVersion.Diff]
      · exact absurd ⟨k, e, h2, h1⟩ htl

theorem Cookbook.diffBuild_eq (a b : Cookbook)
    (hok : Cookbook.NoNilReceiver a b (mapKeys a.Versions)) :
    Cookbook.diffBuild (some a) (some b) = some (Cookbook.builtPos a b, Cookbook.builtNeg a b) := by
  simp only [Cookbook.diffBuild, NewCookbook]
  rw [Cookbook.diffLoop1_eq a b (mapKeys a.Versions) _ _ GoMap.empty GoMap.empty
    (by split_ifs <;> rfl) (by split_ifs <;> rfl) hok]
  simp only
  rw [Cookbook.diffLoop2_eq a b (mapKeys b.Versions) _ _ rfl]
  simp only [Cookbook.builtPos, Cookbook.builtNeg]
  split_ifs <;> rfl

theorem Cookbook.diffBuild_fault (a b : Cookbook)
    (h : ¬ Cookbook.NoNilReceiver a b (mapKeys a.Versions)) :
    Cookbook.diffBuild (some a) (some b) = none := by
  have h' : ∃ k ∈ mapKeys a.Versions, b.index k ≠ none ∧ a.index k = none := by
    unfold Cookbook.NoNilReceiver at h
    push_neg at h
    exact h
  simp only [Cookbook.diffBuild, NewCookbook]
  rw [Cookbook.diffLoop1_fault a b _ h']

/-- `Diff` on two present Cookbooks that are not equal and on which no step faults. -/
theorem Cookbook.Diff_eq (a b : Cookbook) (hne : a ≠ b)
    (hok : Cookbook.NoNilReceiver a b (mapKeys a.Versions)) :
    Cookbook.Diff (some a) (some b) =
      some (if Cookbook.Empty (some (Cookbook.builtPos a b)) then none
              else some (Cookbook.builtPos a b),
            if Cookbook.Empty (some (Cookbook.builtNeg a b)) then none
              else some (Cookbook.builtNeg a b)) := by
  have hne' : (some a : Option Cookbook) ≠ some b := fun e => hne (Option.some.inj e)
  simp only [Cookbook.Diff, Cookbook.Equals_eq_false hne', Bool.false_eq_true, if_false,
    Cookbook.diffBuild_eq a b hok]

theorem Cookbook.Diff_of_eq (a : Option Cookbook) : Cookbook.Diff a a = some (none, none) := by
  simp only [Cookbook.Diff, Cookbook.Equals_self, if_true]

theorem Cookbook.Diff_fault (a b : Cookbook)
    (h : ¬ Cookbook.NoNilReceiver a b (mapKeys a.Versions)) :
    Cookbook.Diff (some a) (some b) = none := by
  have hne : (some a : Option Cookbook) ≠ some b := by
    intro e
    have e' : a = b := Option.some.inj e
    subst e'
    exact h (fun k _ hk => hk)
  simp only [Cookbook.Diff, Cookbook.Equals_eq_false hne, Bool.false_eq_true, if_false,
    Cookbook.diffBuild_fault a b h]

theorem Cookbook.NoNilReceiver_of_noNilValues (a b : Cookbook) (h : Cookbook.NoNilValues a) :
    Cookbook.NoNilReceiver a b (mapKeys a.Versions) :=
  fun k hk _ => h k hk

/-! ## Entries of the built Cookbooks -/

theorem Cookbook.index_eq (c : Cookbook) (k : String) :
    c.index k =
      (match c.entry k with
        | some v => v
        | none => none) := rfl

theorem Cookbook.mem_mapKeys_iff_entry (c : Cookbook) (k : String) :
    k ∈ mapKeys c.Versions ↔ c.entry k ≠ none := by
  unfold Cookbook.entry
  rw [Ne, mapLookup_eq_none_iff, not_not]

theorem Cookbook.builtPos_entry (a b : Cookbook) (k : String) :
    (Cookbook.builtPos a b).entry k = Cookbook.posAt a b k := by
  simp only [Cookbook.entry, Cookbook.builtPos, mapLookup, GoMap.lookup_writes,
    GoMap.lookup_empty, Cookbook.posAt, Cookbook.posWrite2]
  by_cases hb : k ∈ mapKeys b.Versions
  · by_cases ha : a.index k = none
    · simp [hb, ha]
    · by_cases hka : k ∈ mapKeys a.Versions
      · simp only [hb, ha, hka, if_true, if_false, and_false]
        cases Cookbook.posWrite1 a b k <;> rfl
      · exact absurd (a.index_of_not_mem k hka) ha
  · by_cases hka : k ∈ mapKeys a.Versions
    · simp only [hb, hka, if_true, if_false, false_and]
      cases Cookbook.posWrite1 a b k <;> rfl
    · simp [hb, hka]

theorem Cookbook.builtNeg_entry (a b : Cookbook) (k : String) :
    (Cookbook.builtNeg a b).entry k = Cookbook.negAt a b k := by
  simp only [Cookbook.entry, Cookbook.builtNeg, mapLookup, GoMap.lookup_writes,
    GoMap.lookup_empty, Cookbook.negAt]
  by_cases hka : k ∈ mapKeys a.Versions
  · simp only [hka, if_true]
    cases Cookbook.negWrite1 a b k <;> rfl
  · simp [hka]

/-- Two Cookbooks with the same name, non-nil maps and the same entry under every key are the
same Cookbook. -/
theorem Cookbook.ext_entry (c d : Cookbook) (hn : c.Name = d.Name)
    (hc : c.Versions ≠ none) (hd : d.Versions ≠ none)
    (h : ∀ k, c.entry k = d.entry k) : c = d := by
  obtain ⟨cn, cv⟩ := c
  obtain ⟨dn, dv⟩ := d
  obtain ⟨cm, hcm⟩ := Option.ne_none_iff_exists'.1 hc
  obtain ⟨dm, hdm⟩ := Option.ne_none_iff_exists'.1 hd
  simp only at hn hcm hdm
  subst hn; subst hcm; subst hdm
  have e : cm = dm := GoMap.ext_lookup h
  rw [e]

/-- `Cookbook.Empty` on a present Cookbook: the name is empty and every entry is `Empty`. -/
theorem Cookbook.Empty_some_iff (c : Cookbook) :
    Cookbook.Empty (some c) = true ↔
      c.Name = "" ∧ ∀ k v, c.entry k = some v → CookbookVersion.Empty v = true := by
  have hall : (∀ k ∈ mapKeys c.Versions, CookbookVersion.Empty (c.index k) = true) ↔
      ∀ k v, c.entry k = some v → CookbookVersion.Empty v = true := by
    constructor
    · intro h k v hv
      have hk : k ∈ mapKeys c.Versions := (c.mem_mapKeys_iff_entry k).2 (by rw [hv]; simp)
      have := h k hk
      rw [Cookbook.index_eq, hv] at this
      exact this
    · intro h k hk
      obtain ⟨v, hv⟩ := Option.ne_none_iff_exists'.1 ((c.mem_mapKeys_iff_entry k).1 hk)
      rw [Cookbook.index_eq, hv]
      exact h k v hv
  rw [← hall]
  simp only [Cookbook.Empty, List.any_eq_true, Bool.not_eq_true', ne_eq, ite_not]
  by_cases hn : c.Name = ""
  · simp only [hn, if_true, true_and]
    constructor
    · intro h k hk
      by_contra hne
      have hf : CookbookVersion.Empty (c.index k) = false := by simpa using hne
      have hex : ∃ x, x ∈ mapKeys c.Versions ∧ CookbookVersion.Empty (c.index x) = false :=
        ⟨k, hk, hf⟩
      rw [if_pos hex] at h
      exact absurd h (by simp)
    · intro h
      rw [if_neg]
      rintro ⟨k, hk, hf⟩
      rw [h k hk] at hf
      exact absurd hf (by simp)
  · simp only [hn, if_false, false_and, iff_false]
    split_ifs <;> simp

/-! ## The version-level operations -/

theorem mem_mapKeys_of_lookup {V : Type} {m : Option (GoMap V)} {k : String} {v : V}
    (h : mapLookup m k = some v) : k ∈ mapKeys m :=
  (mem_mapKeys_iff m k).2 ⟨v, h⟩

theorem not_mem_mapKeys_of_lookup {V : Type} {m : Option (GoMap V)} {k : String}
    (h : mapLookup m k = none) : k ∉ mapKeys m :=
  (mapLookup_eq_none_iff m k).1 h

theorem CookbookVersion.diffDeps_fst_lookup (d1 d2 : Option (GoMap String)) (k : String) :
    (CookbookVersion.diffDeps d1 d2).1.lookup k =
      (match mapLookup d1 k, mapLookup d2 k with
        | none, some y => some y
        | some x, some y => if x ≠ y then some y else none
        | _, none => none) := by
  simp only [CookbookVersion.diffDeps, GoMap.lookup_writes, GoMap.lookup_empty]
  cases h1 : mapLookup d1 k with
  | none =>
    have m1 := not_mem_mapKeys_of_lookup h1
    cases h2 : mapLookup d2 k with
    | none =>
      have m2 := not_mem_mapKeys_of_lookup h2
      simp [m1, m2]
    | some y =>
      have m2 := mem_mapKeys_of_lookup h2
      simp [m1, m2]
  | some x =>
    have m1 := mem_mapKeys_of_lookup h1
    cases h2 : mapLookup d2 k with
    | none =>
      have m2 := not_mem_mapKeys_of_lookup h2
      simp [m1, m2]
    | some y =>
      have m2 := mem_mapKeys_of_lookup h2
      by_cases hxy : x = y <;> simp [m1, m2, hxy]

theorem CookbookVersion.diffDeps_snd_lookup (d1 d2 : Option (GoMap String)) (k : String) :
    (CookbookVersion.diffDeps d1 d2).2.lookup k =
      (match mapLookup d1 k, mapLookup d2 k with
        | some x, none => some x
        | some x, some y => if x ≠ y then some x else none
        | none, _ => none) := by
  simp only [CookbookVersion.diffDeps, GoMap.lookup_writes, GoMap.lookup_empty]
  cases h1 : mapLookup d1 k with
  | none =>
    have m1 := not_mem_mapKeys_of_lookup h1
    simp [m1]
  | some x =>
    have m1 := mem_mapKeys_of_lookup h1
    cases h2 : mapLookup d2 k with
    | none => simp [m1]
    | some y => by_cases hxy : x = y <;> simp [m1, hxy]

/-- Swapping the two dependency maps swaps the two result maps. -/
theorem CookbookVersion.diffDeps_swap (d1 d2 : Option (GoMap String)) :
    CookbookVersion.diffDeps d2 d1 =
      ((CookbookVersion.diffDeps d1 d2).2, (CookbookVersion.diffDeps d1 d2).1) := by
  refine Prod.ext ?_ ?_
  · apply GoMap.ext_lookup
    intro k
    simp only [CookbookVersion.diffDeps_fst_lookup, CookbookVersion.diffDeps_snd_lookup]
    cases mapLookup d1 k with
    | none => cases mapLookup d2 k <;> rfl
    | some x =>
      cases mapLookup d2 k with
      | none => rfl
      | some y => by_cases hxy : x = y <;> simp [hxy, eq_comm]
  · apply GoMap.ext_lookup
    intro k
    simp only [CookbookVersion.diffDeps_fst_lookup, CookbookVersion.diffDeps_snd_lookup]
    cases mapLookup d1 k with
    | none => cases mapLookup d2 k <;> rfl
    | some x =>
      cases mapLookup d2 k with
      | none => rfl
      | some y => by_cases hxy : x = y <;> simp [hxy, eq_comm]

/-- The version-level diff of the swapped arguments is the swapped pair. -/
theorem CookbookVersion.Diff_swap (x y : CookbookVersion) (p n : Option CookbookVersion)
    (h : CookbookVersion.Diff (some x) (some y) = some (p, n)) :
    CookbookVersion.Diff (some y) (some x) = some (n, p) := by
  by_cases he : x = y
  · subst he
    have hE : CookbookVersion.Equals (some x) (some x) = true :=
      (CookbookVersion.vEquals_iff _ _).2 rfl
    simp only [CookbookVersion.Diff, hE, if_true, Option.some.injEq, Prod.mk.injEq] at h ⊢
    exact ⟨h.2, h.1⟩
  · have h1 : CookbookVersion.Equals (some x) (some y) = false :=
      CookbookVersion.vEquals_eq_false (fun e => he (Option.some.inj e))
    have h2 : CookbookVersion.Equals (some y) (some x) = false :=
      CookbookVersion.vEquals_eq_false (fun e => he (Option.some.inj e).symm)
    simp only [CookbookVersion.Diff, h1, h2, Bool.false_eq_true, if_false,
      CookbookVersion.diffDeps_swap x.Dependencies y.Dependencies, ne_eq,
      eq_comm (a := y.LocationType), eq_comm (a := y.LocationPath),
      eq_comm (a := y.DownloadURL), Option.some.injEq, Prod.mk.injEq] at h ⊢
    exact ⟨h.2, h.1⟩

theorem CookbookVersion.collapse_iff (v : CookbookVersion) :
    (if CookbookVersion.Empty (some v) = true then none else some v) = none ↔
      CookbookVersion.Empty (if CookbookVersion.Empty (some v) = true then none else some v)
        = true := by
  by_cases h : CookbookVersion.Empty (some v) = true
  · simp only [h, if_true]
    simp [CookbookVersion.Empty]
  · rw [if_neg h]
    constructor
    · intro e; exact absurd e (by simp)
    · intro e; exact absurd e h

/-- Each half of a version-level diff is absent exactly when it is `Empty`. -/
theorem CookbookVersion.Diff_collapse (x y p n : Option CookbookVersion)
    (h : CookbookVersion.Diff x y = some (p, n)) :
    (p = none ↔ CookbookVersion.Empty p = true) ∧
      (n = none ↔ CookbookVersion.Empty n = true) := by
  cases x with
  | none =>
    cases y with
    | none =>
      simp only [CookbookVersion.Diff, Option.some.injEq, Prod.mk.injEq] at h
      rw [← h.1, ← h.2]
      simp [CookbookVersion.Empty]
    | some y => simp [CookbookVersion.Diff] at h
  | some x =>
    cases y with
    | none => simp [CookbookVersion.Diff] at h
    | some y =>
      by_cases h1 : CookbookVersion.Equals (some x) (some y) = true
      · simp only [CookbookVersion.Diff, h1, if_true, Option.some.injEq, Prod.mk.injEq] at h
        rw [← h.1, ← h.2]
        simp [CookbookVersion.Empty]
      · simp only [CookbookVersion.Diff, if_neg h1, Option.some.injEq, Prod.mk.injEq] at h
        rw [← h.1, ← h.2]
        exact ⟨CookbookVersion.collapse_iff _, CookbookVersion.collapse_iff _⟩

/-! ## Swapping the arguments of `Diff` -/

theorem CookbookVersion.Equals_comm (x y : Option CookbookVersion) :
    CookbookVersion.Equals x y = CookbookVersion.Equals y x := by
  by_cases h : x = y
  · rw [h]
  · rw [CookbookVersion.vEquals_eq_false h, CookbookVersion.vEquals_eq_false (Ne.symm h)]

/-- What `Diff b a` writes into its `pos` under a key is what `Diff a b` writes into its `neg`,
when neither map holds a nil value. -/
theorem Cookbook.posAt_swap (a b : Cookbook) (ha : Cookbook.NoNilValues a) (k : String) :
    Cookbook.posAt b a k = Cookbook.negAt a b k := by
  unfold Cookbook.posAt Cookbook.negAt Cookbook.posWrite1 Cookbook.negWrite1
  by_cases hka : k ∈ mapKeys a.Versions
  · have hax := ha k hka
    obtain ⟨x, hx⟩ := Option.ne_none_iff_exists'.1 hax
    by_cases hb : b.index k = none
    · simp only [hka, hb, and_self, if_true]
    · have hkb : k ∈ mapKeys b.Versions := b.mem_of_index_ne_none k hb
      obtain ⟨y, hy⟩ := Option.ne_none_iff_exists'.1 hb
      obtain ⟨p, n, hd⟩ := CookbookVersion.Diff_isSome x y
      have hd' := CookbookVersion.Diff_swap x y p n hd
      simp only [hka, hkb, hb, hax, and_false, if_true, if_false,
        CookbookVersion.Equals_comm (b.index k) (a.index k)]
      rw [hx, hy, hd, hd']
  · have hax : a.index k = none := a.index_of_not_mem k hka
    simp only [hka, hax, false_and, if_true, if_false]
    split_ifs <;> rfl

theorem Cookbook.negAt_swap (a b : Cookbook) (hb : Cookbook.NoNilValues b) (k : String) :
    Cookbook.negAt b a k = Cookbook.posAt a b k :=
  (Cookbook.posAt_swap b a hb k).symm

theorem Cookbook.builtPos_swap (a b : Cookbook) (ha : Cookbook.NoNilValues a) :
    Cookbook.builtPos b a = Cookbook.builtNeg a b := by
  refine Cookbook.ext_entry _ _ ?_ (by simp [Cookbook.builtPos]) (by simp [Cookbook.builtNeg]) ?_
  · simp only [Cookbook.builtPos, Cookbook.builtNeg, ne_eq, eq_comm (a := b.Name)]
  · intro k
    rw [Cookbook.builtPos_entry, Cookbook.builtNeg_entry, Cookbook.posAt_swap a b ha k]

theorem Cookbook.builtNeg_swap (a b : Cookbook) (hb : Cookbook.NoNilValues b) :
    Cookbook.builtNeg b a = Cookbook.builtPos a b :=
  (Cookbook.builtPos_swap b a hb).symm

/-! ## The claims -/

/-- C1, counterexample.  The zero Cookbook (nil `Versions`) and the fresh one (empty `Versions`)
are not `Equals`, yet their `Diff` is `(nil, nil)`: the equivalence of the claim fails. -/
theorem C1_counterexample :
    ¬ (Cookbook.Equals (some cbNilMap) (some cbEmptyMap) = true ↔
        Cookbook.Diff (some cbNilMap) (some cbEmptyMap) = some (none, none)) := by
  decide

/-- C1, amended.  For present Cookbooks `a` and `b`: `a.Equals(b)` implies
`a.Diff(b) = (nil, nil)`; and `a.Diff(b) = (nil, nil)` holds exactly when `a.Equals(b)`, or no
step faults, the names are equal, and every value the loops write into `pos.Versions` and
`neg.Versions` is `Empty`. -/
theorem C1_diff_nil_iff (a b : Cookbook) :
    (Cookbook.Equals (some a) (some b) = true →
        Cookbook.Diff (some a) (some b) = some (none, none)) ∧
      (Cookbook.Diff (some a) (some b) = some (none, none) ↔
        (Cookbook.Equals (some a) (some b) = true ∨
          (Cookbook.NoNilReceiver a b (mapKeys a.Versions) ∧ a.Name = b.Name ∧
            (∀ k v, Cookbook.posAt a b k = some v → CookbookVersion.Empty v = true) ∧
            (∀ k v, Cookbook.negAt a b k = some v → CookbookVersion.Empty v = true)))) := by
  have hfwd : Cookbook.Equals (some a) (some b) = true →
      Cookbook.Diff (some a) (some b) = some (none, none) := by
    intro h
    rw [(Cookbook.Equals_iff _ _).1 h]
    exact Cookbook.Diff_of_eq _
  refine ⟨hfwd, ?_, ?_⟩
  · intro h
    by_cases heq : a = b
    · left; rw [heq]; exact Cookbook.Equals_self _
    · right
      by_cases hok : Cookbook.NoNilReceiver a b (mapKeys a.Versions)
      · rw [Cookbook.Diff_eq a b heq hok] at h
        simp only [Option.some.injEq, Prod.mk.injEq, ite_eq_left_iff, reduceCtorEq, imp_false,
          not_not] at h
        obtain ⟨hp, hn⟩ := h
        rw [Cookbook.Empty_some_iff] at hp hn
        refine ⟨hok, ?_, ?_, ?_⟩
        · by_contra hne
          have h1 := hp.1
          have h2 := hn.1
          simp only [Cookbook.builtPos, Cookbook.builtNeg, ne_eq, hne, not_false_eq_true,
            if_true] at h1 h2
          exact hne (h2.trans h1.symm)
        · intro k v hv
          exact hp.2 k v (by rw [Cookbook.builtPos_entry]; exact hv)
        · intro k v hv
          exact hn.2 k v (by rw [Cookbook.builtNeg_entry]; exact hv)
      · rw [Cookbook.Diff_fault a b hok] at h
        exact absurd h (by simp)
  · rintro (h | ⟨hok, hname, hp, hn⟩)
    · exact hfwd h
    · by_cases heq : a = b
      · rw [heq]; exact Cookbook.Diff_of_eq _
      · have ep : Cookbook.Empty (some (Cookbook.builtPos a b)) = true := by
          rw [Cookbook.Empty_some_iff]
          refine ⟨by simp [Cookbook.builtPos, hname], ?_⟩
          intro k v hv
          rw [Cookbook.builtPos_entry] at hv
          exact hp k v hv
        have en : Cookbook.Empty (some (Cookbook.builtNeg a b)) = true := by
          rw [Cookbook.Empty_some_iff]
          refine ⟨by simp [Cookbook.builtNeg, hname], ?_⟩
          intro k v hv
          rw [Cookbook.builtNeg_entry] at hv
          exact hn k v hv
        rw [Cookbook.Diff_eq a b heq hok, ep, en]
        simp

/-- C2.  Antisymmetry of diff: for present Cookbooks `a` and `b` whose `Versions` hold no nil
value, `a.Diff(b)` returns a pair `(pos, neg)` and `b.Diff(a)` returns `(neg, pos)`. -/
theorem C2_diff_antisymmetric (a b : Cookbook)
    (ha : Cookbook.NoNilValues a) (hb : Cookbook.NoNilValues b) :
    ∃ pos neg, Cookbook.Diff (some a) (some b) = some (pos, neg) ∧
      Cookbook.Diff (some b) (some a) = some (neg, pos) := by
  by_cases heq : a = b
  · subst heq
    exact ⟨none, none, Cookbook.Diff_of_eq _, Cookbook.Diff_of_eq _⟩
  · refine ⟨_, _, Cookbook.Diff_eq a b heq (Cookbook.NoNilReceiver_of_noNilValues a b ha), ?_⟩
    rw [Cookbook.Diff_eq b a (Ne.symm heq) (Cookbook.NoNilReceiver_of_noNilValues b a hb),
      Cookbook.builtPos_swap a b ha, Cookbook.builtNeg_swap a b hb]

/-- C2, witness: the two snapshots of scenario 2, diffed both ways. -/
theorem C2_diff_antisymmetric_witness :
    Cookbook.NoNilValues cbOne ∧ Cookbook.NoNilValues cbTwo ∧
      ∃ pos neg, Cookbook.Diff (some cbOne) (some cbTwo) = some (pos, neg) ∧
        Cookbook.Diff (some cbTwo) (some cbOne) = some (neg, pos) :=
  ⟨by decide, by decide, C2_diff_antisymmetric cbOne cbTwo (by decide) (by decide)⟩

/-- C3.  Reflexivity: every Cookbook pointer `x`, nil included, has `x.Equals(x)` true and
`x.Diff(x) = (nil, nil)`; so has the "chef-dk" snapshot of scenario 1 diffed with itself. -/
theorem C3_reflexive :
    (∀ x : Option Cookbook,
        Cookbook.Equals x x = true ∧ Cookbook.Diff x x = some (none, none)) ∧
      Cookbook.Diff (some chefDk) (some chefDk) = some (none, none) :=
  ⟨fun x => ⟨Cookbook.Equals_self x, Cookbook.Diff_of_eq x⟩, Cookbook.Diff_of_eq _⟩

/-- C4.  Each of the two results of `a.Diff(b)` on present Cookbooks is nil exactly when it is
`Empty`. -/
theorem C4_results_collapsed (a b : Cookbook) (pos neg : Option Cookbook)
    (h : Cookbook.Diff (some a) (some b) = some (pos, neg)) :
    (pos = none ↔ Cookbook.Empty pos = true) ∧ (neg = none ↔ Cookbook.Empty neg = true) := by
  have hcol : ∀ c : Cookbook,
      ((if Cookbook.Empty (some c) = true then none else some c) = none ↔
        Cookbook.Empty (if Cookbook.Empty (some c) = true then none else some c) = true) := by
    intro c
    by_cases hc : Cookbook.Empty (some c) = true
    · simp only [hc, if_true]
      simp [Cookbook.Empty]
    · rw [if_neg hc]
      constructor
      · intro e; exact absurd e (by simp)
      · intro e; exact absurd e hc
  unfold Cookbook.Diff at h
  split_ifs at h with he
  · simp only [Option.some.injEq, Prod.mk.injEq] at h
    rw [← h.1, ← h.2]
    simp [Cookbook.Empty]
  · cases hb : Cookbook.diffBuild (some a) (some b) with
    | none => rw [hb] at h; exact absurd h (by simp)
    | some pn =>
      obtain ⟨P, N⟩ := pn
      rw [hb] at h
      simp only [Option.some.injEq, Prod.mk.injEq] at h
      rw [← h.1, ← h.2]
      exact ⟨hcol P, hcol N⟩

/-- C4, witness: scenario 2, where `pos` is present and not `Empty` and `neg` is nil. -/
theorem C4_results_collapsed_witness :
    Cookbook.Diff (some cbOne) (some cbTwo) =
        some (some (mkCookbook "" [("1.1.0", some (vZlib ">= 1.0"))]), none) ∧
      ((some (mkCookbook "" [("1.1.0", some (vZlib ">= 1.0"))]) = none ↔
          Cookbook.Empty (some (mkCookbook "" [("1.1.0", some (vZlib ">= 1.0"))])) = true) ∧
        ((none : Option Cookbook) = none ↔ Cookbook.Empty none = true)) :=
  ⟨by decide, C4_results_collapsed cbOne cbTwo _ _ (by decide)⟩

theorem Cookbook.entry_eq_some_index (c : Cookbook) (k : String)
    (h : k ∈ mapKeys c.Versions) : c.entry k = some (c.index k) := by
  obtain ⟨v, hv⟩ := Option.ne_none_iff_exists'.1 ((c.mem_mapKeys_iff_entry k).1 h)
  rw [Cookbook.index_eq, hv]

theorem Cookbook.entry_of_not_mem (c : Cookbook) (k : String)
    (h : k ∉ mapKeys c.Versions) : c.entry k = none :=
  (mapLookup_eq_none_iff c.Versions k).2 h

/-- C5.  Key-set completeness: for present, non-equal Cookbooks `a` and `b` without nil map
values, `Diff` builds `pos` and `neg` (and returns them after the emptiness collapse), and every
key of `a.Versions` or `b.Versions` is in exactly one of the classes unchanged, added, removed,
changed, with the built maps reflecting the class (`KeyAccounted`). -/
theorem C5_key_set_complete (a b : Cookbook)
    (hne : Cookbook.Equals (some a) (some b) = false)
    (ha : Cookbook.NoNilValues a) (hb : Cookbook.NoNilValues b) :
    ∃ pos neg, Cookbook.diffBuild (some a) (some b) = some (pos, neg) ∧
      Cookbook.Diff (some a) (some b) =
        some (if Cookbook.Empty (some pos) then none else some pos,
              if Cookbook.Empty (some neg) then none else some neg) ∧
      ∀ k, k ∈ mapKeys a.Versions ∨ k ∈ mapKeys b.Versions →
        Cookbook.KeyAccounted a b pos neg k := by
  have hok := Cookbook.NoNilReceiver_of_noNilValues a b ha
  have hab : a ≠ b := by
    intro e
    rw [e, Cookbook.Equals_self] at hne
    exact absurd hne (by simp)
  refine ⟨_, _, Cookbook.diffBuild_eq a b hok, Cookbook.Diff_eq a b hab hok, ?_⟩
  intro k hk
  have hU : Cookbook.Unchanged a b k →
      (Cookbook.builtPos a b).entry k = none ∧ (Cookbook.builtNeg a b).entry k = none := by
    rintro ⟨h1, h2, h3⟩
    have hak := ha k h1
    have hbk := hb k h2
    rw [Cookbook.builtPos_entry, Cookbook.builtNeg_entry]
    simp [Cookbook.posAt, Cookbook.negAt, Cookbook.posWrite1, Cookbook.negWrite1, h1, h2, h3,
      hak, hbk]
  have hA : Cookbook.Added a b k →
      (Cookbook.builtPos a b).entry k = b.entry k ∧ (Cookbook.builtNeg a b).entry k = none := by
    rintro ⟨h1, h2⟩
    have hak := a.index_of_not_mem k h1
    rw [Cookbook.builtPos_entry, Cookbook.builtNeg_entry, b.entry_eq_some_index k h2]
    simp [Cookbook.posAt, Cookbook.negAt, h1, h2, hak]
  have hR : Cookbook.Removed a b k →
      (Cookbook.builtPos a b).entry k = none ∧ (Cookbook.builtNeg a b).entry k = a.entry k := by
    rintro ⟨h1, h2⟩
    have hbk := b.index_of_not_mem k h2
    rw [Cookbook.builtPos_entry, Cookbook.builtNeg_entry, a.entry_eq_some_index k h1]
    simp [Cookbook.posAt, Cookbook.negAt, Cookbook.posWrite1, Cookbook.negWrite1, h1, h2, hbk]
  have hC : Cookbook.Changed a b k →
      ∃ p n, CookbookVersion.Diff (a.index k) (b.index k) = some (p, n) ∧
        (Cookbook.builtPos a b).entry k = some p ∧ (Cookbook.builtNeg a b).entry k = some n := by
    rintro ⟨h1, h2, h3⟩
    have hak := ha k h1
    have hbk := hb k h2
    obtain ⟨x, hx⟩ := Option.ne_none_iff_exists'.1 hak
    obtain ⟨y, hy⟩ := Option.ne_none_iff_exists'.1 hbk
    obtain ⟨p, n, hd⟩ := CookbookVersion.Diff_isSome x y
    refine ⟨p, n, by rw [hx, hy, hd], ?_, ?_⟩
    · rw [Cookbook.builtPos_entry]
      simp only [Cookbook.posAt, Cookbook.posWrite1, h1, h2, h3, hak, hbk, and_false, if_true,
        if_false, Bool.not_false]
      rw [hx, hy, hd]
    · rw [Cookbook.builtNeg_entry]
      simp only [Cookbook.negAt, Cookbook.negWrite1, h1, h3, hbk, if_true, if_false,
        Bool.not_false]
      rw [hx, hy, hd]
  refine ⟨?_, hU, hA, hR, hC⟩
  unfold Cookbook.Unchanged Cookbook.Added Cookbook.Removed Cookbook.Changed
  by_cases h1 : k ∈ mapKeys a.Versions
  · by_cases h2 : k ∈ mapKeys b.Versions
    · cases h3 : CookbookVersion.Equals (a.index k) (b.index k) <;> simp [h1, h2]
    · simp [h1, h2]
  · by_cases h2 : k ∈ mapKeys b.Versions
    · simp [h1, h2]
    · rcases hk with hk | hk
      · exact absurd hk h1
      · exact absurd hk h2

/-- C5, witness: a pair of snapshots with one key of each class. -/
theorem C5_key_set_complete_witness :
    Cookbook.Equals (some cbOld) (some cbNew) = false ∧
      Cookbook.NoNilValues cbOld ∧ Cookbook.NoNilValues cbNew ∧
      (Cookbook.Unchanged cbOld cbNew "1.0.0" ∧ Cookbook.Changed cbOld cbNew "1.1.0" ∧
        Cookbook.Removed cbOld cbNew "1.2.0" ∧ Cookbook.Added cbOld cbNew "2.0.0") ∧
      ∃ pos neg, Cookbook.diffBuild (some cbOld) (some cbNew) = some (pos, neg) ∧
        Cookbook.Diff (some cbOld) (some cbNew) =
          some (if Cookbook.Empty (some pos) then none else some pos,
                if Cookbook.Empty (some neg) then none else some neg) ∧
        ∀ k, k ∈ mapKeys cbOld.Versions ∨ k ∈ mapKeys cbNew.Versions →
          Cookbook.KeyAccounted cbOld cbNew pos neg k :=
  ⟨by decide, by decide, by decide, by decide,
    C5_key_set_complete cbOld cbNew (by decide) (by decide) (by decide)⟩

/-! ## Keys that both Cookbooks hold with equal values -/

/-- A key of `a` that `b` holds with an `Equals` value is written by no loop, when its value in
`a` is present. -/
theorem Cookbook.writes_of_equal (a b : Cookbook) (k : String)
    (hka : k ∈ mapKeys a.Versions) (hak : a.index k ≠ none)
    (he : CookbookVersion.Equals (a.index k) (b.index k) = true) :
    Cookbook.posAt a b k = none ∧ Cookbook.negAt a b k = none := by
  have hbk : b.index k ≠ none := by
    rw [← (CookbookVersion.vEquals_iff _ _).1 he]; exact hak
  constructor
  · simp [Cookbook.posAt, Cookbook.posWrite1, hka, hak, hbk, he]
  · simp [Cookbook.negAt, Cookbook.negWrite1, hka, hbk, he]

/-- A key of `b` that is not in `a` is written into `pos` with the value of `b`. -/
theorem Cookbook.posAt_of_added (a b : Cookbook) (k : String)
    (hka : k ∉ mapKeys a.Versions) : Cookbook.posAt a b k = b.entry k := by
  have hak := a.index_of_not_mem k hka
  by_cases hkb : k ∈ mapKeys b.Versions
  · simp [Cookbook.posAt, hka, hkb, hak, b.entry_eq_some_index k hkb]
  · simp [Cookbook.posAt, hka, hkb, b.entry_of_not_mem k hkb]

/-- A key of `a` that is not in `b` is written into `neg` with the value of `a`, and not into
`pos`. -/
theorem Cookbook.writes_of_removed (a b : Cookbook) (k : String)
    (hka : k ∈ mapKeys a.Versions) (hkb : k ∉ mapKeys b.Versions) :
    Cookbook.posAt a b k = none ∧ Cookbook.negAt a b k = a.entry k := by
  have hbk := b.index_of_not_mem k hkb
  constructor
  · simp [Cookbook.posAt, Cookbook.posWrite1, hka, hkb, hbk]
  · simp [Cookbook.negAt, Cookbook.negWrite1, hka, hbk, a.entry_eq_some_index k hka]

theorem Cookbook.negAt_of_not_mem (a b : Cookbook) (k : String)
    (hka : k ∉ mapKeys a.Versions) : Cookbook.negAt a b k = none := by
  simp [Cookbook.negAt, hka]

theorem Cookbook.Empty_eq_false_of_entry (c : Cookbook) (k : String)
    (v : Option CookbookVersion) (hv : c.entry k = some v)
    (hne : CookbookVersion.Empty v = false) : Cookbook.Empty (some c) = false := by
  cases h : Cookbook.Empty (some c) with
  | false => rfl
  | true =>
    have := ((Cookbook.Empty_some_iff c).1 h).2 k v hv
    rw [hne] at this
    exact absurd this (by simp)

theorem Cookbook.Empty_eq_false_of_name (c : Cookbook) (hn : c.Name ≠ "") :
    Cookbook.Empty (some c) = false := by
  cases h : Cookbook.Empty (some c) with
  | false => rfl
  | true => exact absurd ((Cookbook.Empty_some_iff c).1 h).1 hn

/-- C6, counterexample.  `cbNilB` holds the one entry of `cbNilA` (key "1.0.0", nil value, and
nil `Equals` nil) plus the key "1.1.0" with a non-empty version, under the same name; yet the
positive result holds "1.0.0" too, which is not an added key. -/
theorem C6_counterexample :
    cbNilA.Name = cbNilB.Name ∧
      (∀ k ∈ mapKeys cbNilA.Versions, k ∈ mapKeys cbNilB.Versions ∧
        CookbookVersion.Equals (cbNilA.index k) (cbNilB.index k) = true) ∧
      (∃ k ∈ mapKeys cbNilB.Versions, k ∉ mapKeys cbNilA.Versions) ∧
      (∀ k ∈ mapKeys cbNilB.Versions, k ∉ mapKeys cbNilA.Versions →
        CookbookVersion.Empty (cbNilB.index k) = false) ∧
      Cookbook.Diff (some cbNilA) (some cbNilB) =
        some (some (mkCookbook "" [("1.0.0", none), ("1.1.0", some vPlain)]), none) ∧
      Cookbook.Diff (some cbNilA) (some cbNilB) ≠
        some (some (mkCookbook "" [("1.1.0", some vPlain)]), none) := by
  decide

/-- C6, amended.  Version added: for present Cookbooks `a` and `b` with the same name, where
`a.Versions` holds no nil value, `b.Versions` holds every key of `a.Versions` with an `Equals`
value, and holds one or more further keys, all with non-`Empty` values: `a.Diff(b)` returns
`neg = nil` and a present `pos` with name "" whose `Versions` is a non-nil map holding exactly
the added keys, each with the value of `b`. -/
theorem C6_version_added (a b : Cookbook) (hname : a.Name = b.Name)
    (ha : Cookbook.NoNilValues a)
    (hsub : ∀ k ∈ mapKeys a.Versions, k ∈ mapKeys b.Versions ∧
      CookbookVersion.Equals (a.index k) (b.index k) = true)
    (hadd : ∃ k ∈ mapKeys b.Versions, k ∉ mapKeys a.Versions)
    (hne : ∀ k ∈ mapKeys b.Versions, k ∉ mapKeys a.Versions →
      CookbookVersion.Empty (b.index k) = false) :
    ∃ pos : Cookbook, Cookbook.Diff (some a) (some b) = some (some pos, none) ∧
      pos.Name = "" ∧ pos.Versions ≠ none ∧
      ∀ k, pos.entry k = if k ∈ mapKeys a.Versions then none else b.entry k := by
  have hab : a ≠ b := by
    intro e
    subst e
    obtain ⟨k, h1, h2⟩ := hadd
    exact h2 h1
  have hok := Cookbook.NoNilReceiver_of_noNilValues a b ha
  have hposAt : ∀ k, Cookbook.posAt a b k =
      if k ∈ mapKeys a.Versions then none else b.entry k := by
    intro k
    by_cases hka : k ∈ mapKeys a.Versions
    · rw [if_pos hka]
      exact (Cookbook.writes_of_equal a b k hka (ha k hka) (hsub k hka).2).1
    · rw [if_neg hka]
      exact Cookbook.posAt_of_added a b k hka
  have hnegAt : ∀ k, Cookbook.negAt a b k = none := by
    intro k
    by_cases hka : k ∈ mapKeys a.Versions
    · exact (Cookbook.writes_of_equal a b k hka (ha k hka) (hsub k hka).2).2
    · exact Cookbook.negAt_of_not_mem a b k hka
  have en : Cookbook.Empty (some (Cookbook.builtNeg a b)) = true := by
    rw [Cookbook.Empty_some_iff]
    refine ⟨by simp [Cookbook.builtNeg, hname], ?_⟩
    intro k v hv
    rw [Cookbook.builtNeg_entry, hnegAt] at hv
    exact absurd hv (by simp)
  have ep : Cookbook.Empty (some (Cookbook.builtPos a b)) = false := by
    obtain ⟨k, h1, h2⟩ := hadd
    refine Cookbook.Empty_eq_false_of_entry _ k (b.index k) ?_ (hne k h1 h2)
    rw [Cookbook.builtPos_entry, hposAt, if_neg h2, b.entry_eq_some_index k h1]
  refine ⟨Cookbook.builtPos a b, ?_, by simp [Cookbook.builtPos, hname],
    by simp [Cookbook.builtPos], ?_⟩
  · rw [Cookbook.Diff_eq a b hab hok, ep, en]
    simp
  · intro k
    rw [Cookbook.builtPos_entry, hposAt]

/-- C6, witness: scenario 2. -/
theorem C6_version_added_witness :
    cbOne.Name = cbTwo.Name ∧ Cookbook.NoNilValues cbOne ∧
      ∃ pos : Cookbook, Cookbook.Diff (some cbOne) (some cbTwo) = some (some pos, none) ∧
        pos.Name = "" ∧ pos.Versions ≠ none ∧
        ∀ k, pos.entry k = if k ∈ mapKeys cbOne.Versions then none else cbTwo.entry k :=
  ⟨by decide, by decide,
    C6_version_added cbOne cbTwo (by decide) (by decide) (by decide) (by decide) (by decide)⟩

/-- C7, counterexample.  `cbNilB` holds the one entry of `cbNilA` (key "1.0.0", nil value) plus
the key "1.1.0" with a non-empty version, under the same name; yet the negative result of
`cbNilB.Diff(cbNilA)` holds "1.0.0" too, which is not a removed key. -/
theorem C7_counterexample :
    cbNilB.Name = cbNilA.Name ∧
      (∀ k ∈ mapKeys cbNilA.Versions, k ∈ mapKeys cbNilB.Versions ∧
        CookbookVersion.Equals (cbNilB.index k) (cbNilA.index k) = true) ∧
      (∃ k ∈ mapKeys cbNilB.Versions, k ∉ mapKeys cbNilA.Versions) ∧
      (∀ k ∈ mapKeys cbNilB.Versions, k ∉ mapKeys cbNilA.Versions →
        CookbookVersion.Empty (cbNilB.index k) = false) ∧
      Cookbook.Diff (some cbNilB) (some cbNilA) =
        some (none, some (mkCookbook "" [("1.0.0", none), ("1.1.0", some vPlain)])) ∧
      Cookbook.Diff (some cbNilB) (some cbNilA) ≠
        some (none, some (mkCookbook "" [("1.1.0", some vPlain)])) := by
  decide

/-- C7, amended.  Version removed: for present Cookbooks `a` and `b` with the same name, where
`b.Versions` holds no nil value, `a.Versions` holds every key of `b.Versions` with an `Equals`
value, and holds one or more further keys, all with non-`Empty` values: `a.Diff(b)` returns
`pos = nil` and a present `neg` with name "" whose `Versions` is a non-nil map holding exactly
the removed keys, each with the whole value of `a`. -/
theorem C7_version_removed (a b : Cookbook) (hname : a.Name = b.Name)
    (hb : Cookbook.NoNilValues b)
    (hsub : ∀ k ∈ mapKeys b.Versions, k ∈ mapKeys a.Versions ∧
      CookbookVersion.Equals (a.index k) (b.index k) = true)
    (hrem : ∃ k ∈ mapKeys a.Versions, k ∉ mapKeys b.Versions)
    (hne : ∀ k ∈ mapKeys a.Versions, k ∉ mapKeys b.Versions →
      CookbookVersion.Empty (a.index k) = false) :
    ∃ neg : Cookbook, Cookbook.Diff (some a) (some b) = some (none, some neg) ∧
      neg.Name = "" ∧ neg.Versions ≠ none ∧
      ∀ k, neg.entry k = if k ∈ mapKeys b.Versions then none else a.entry k := by
  have hab : a ≠ b := by
    intro e
    subst e
    obtain ⟨k, h1, h2⟩ := hrem
    exact h2 h1
  have hidx : ∀ k ∈ mapKeys b.Versions, a.index k ≠ none := by
    intro k hk
    rw [(CookbookVersion.vEquals_iff _ _).1 (hsub k hk).2]
    exact hb k hk
  have hok : Cookbook.NoNilReceiver a b (mapKeys a.Versions) := by
    intro k _ hbk
    exact hidx k (b.mem_of_index_ne_none k hbk)
  have hposAt : ∀ k, Cookbook.posAt a b k = none := by
    intro k
    by_cases hkb : k ∈ mapKeys b.Versions
    · exact (Cookbook.writes_of_equal a b k (hsub k hkb).1 (hidx k hkb) (hsub k hkb).2).1
    · by_cases hka : k ∈ mapKeys a.Versions
      · exact (Cookbook.writes_of_removed a b k hka hkb).1
      · rw [Cookbook.posAt_of_added a b k hka]
        exact b.entry_of_not_mem k hkb
  have hnegAt : ∀ k, Cookbook.negAt a b k =
      if k ∈ mapKeys b.Versions then none else a.entry k := by
    intro k
    by_cases hkb : k ∈ mapKeys b.Versions
    · rw [if_pos hkb]
      exact (Cookbook.writes_of_equal a b k (hsub k hkb).1 (hidx k hkb) (hsub k hkb).2).2
    · rw [if_neg hkb]
      by_cases hka : k ∈ mapKeys a.Versions
      · exact (Cookbook.writes_of_removed a b k hka hkb).2
      · rw [Cookbook.negAt_of_not_mem a b k hka]
        exact (a.entry_of_not_mem k hka).symm
  have ep : Cookbook.Empty (some (Cookbook.builtPos a b)) = true := by
    rw [Cookbook.Empty_some_iff]
    refine ⟨by simp [Cookbook.builtPos, hname], ?_⟩
    intro k v hv
    rw [Cookbook.builtPos_entry, hposAt] at hv
    exact absurd hv (by simp)
  have en : Cookbook.Empty (some (Cookbook.builtNeg a b)) = false := by
    obtain ⟨k, h1, h2⟩ := hrem
    refine Cookbook.Empty_eq_false_of_entry _ k (a.index k) ?_ (hne k h1 h2)
    rw [Cookbook.builtNeg_entry, hnegAt, if_neg h2, a.entry_eq_some_index k h1]
  refine ⟨Cookbook.builtNeg a b, ?_, by simp [Cookbook.builtNeg, hname],
    by simp [Cookbook.builtNeg], ?_⟩
  · rw [Cookbook.Diff_eq a b hab hok, ep, en]
    simp
  · intro k
    rw [Cookbook.builtNeg_entry, hnegAt]

/-- C7, witness: scenario 3, the inverse of scenario 2. -/
theorem C7_version_removed_witness :
    cbTwo.Name = cbOne.Name ∧ Cookbook.NoNilValues cbOne ∧
      ∃ neg : Cookbook, Cookbook.Diff (some cbTwo) (some cbOne) = some (none, some neg) ∧
        neg.Name = "" ∧ neg.Versions ≠ none ∧
        ∀ k, neg.entry k = if k ∈ mapKeys cbOne.Versions then none else cbTwo.entry k :=
  ⟨by decide, by decide,
    C7_version_removed cbTwo cbOne (by decide) (by decide) (by decide) (by decide) (by decide)⟩

theorem CookbookVersion.Diff_self (x : Option CookbookVersion) :
    CookbookVersion.Diff x x = some (none, none) := by
  cases x with
  | none => rfl
  | some x =>
    have hE : CookbookVersion.Equals (some x) (some x) = true :=
      (CookbookVersion.vEquals_iff _ _).2 rfl
    simp only [CookbookVersion.Diff, hE, if_true]

theorem Cookbook.mk_entry (name : String) (m : GoMap (Option CookbookVersion)) (k : String) :
    ({ Name := name, Versions := some m } : Cookbook).entry k = m.lookup k := rfl

/-- C8, counterexample.  `cbNilC` and `cbNilD` have the same name and the same keys, agree on
every key but "1.0.0" (under "0.9.0" both hold nil), and the version-level diff of "1.0.0" has
both halves present; yet both results hold "0.9.0" as well. -/
theorem C8_counterexample :
    cbNilC.Name = cbNilD.Name ∧ mapKeys cbNilC.Versions = mapKeys cbNilD.Versions ∧
      (∀ j ∈ mapKeys cbNilC.Versions, j ≠ "1.0.0" →
        CookbookVersion.Equals (cbNilC.index j) (cbNilD.index j) = true) ∧
      CookbookVersion.Diff (cbNilC.index "1.0.0") (cbNilD.index "1.0.0") =
        some (some (depOnly ">= 2.0"), some (depOnly ">= 1.0")) ∧
      Cookbook.Diff (some cbNilC) (some cbNilD) =
        some (some (mkCookbook "" [("0.9.0", none), ("1.0.0", some (depOnly ">= 2.0"))]),
              some (mkCookbook "" [("0.9.0", none), ("1.0.0", some (depOnly ">= 1.0"))])) ∧
      Cookbook.Diff (some cbNilC) (some cbNilD) ≠
        some (some (mkCookbook "" [("1.0.0", some (depOnly ">= 2.0"))]),
              some (mkCookbook "" [("1.0.0", some (depOnly ">= 1.0"))])) := by
  decide

/-- C8, amended.  Version changed: for present Cookbooks `a` and `b` with the same name and the
same `Versions` key set, where `a.Versions` holds no nil value, that agree (`Equals`) on every
key but `k`, and where the version-level diff of `a.Versions[k]` and `b.Versions[k]` is `(p, n)`
with both present: `a.Diff(b)` returns `pos` with name "" and `Versions` holding `k -> p` only,
and `neg` with name "" and `Versions` holding `k -> n` only. -/
theorem C8_version_changed (a b : Cookbook) (k : String) (p n : CookbookVersion)
    (hname : a.Name = b.Name) (ha : Cookbook.NoNilValues a)
    (hkeys : mapKeys a.Versions = mapKeys b.Versions)
    (hagree : ∀ j ∈ mapKeys a.Versions, j ≠ k →
      CookbookVersion.Equals (a.index j) (b.index j) = true)
    (hk : k ∈ mapKeys a.Versions)
    (hd : CookbookVersion.Diff (a.index k) (b.index k) = some (some p, some n)) :
    Cookbook.Diff (some a) (some b) =
      some (some { Name := "", Versions := some (GoMap.empty.set k (some p)) },
            some { Name := "", Versions := some (GoMap.empty.set k (some n)) }) := by
  have hak : a.index k ≠ none := ha k hk
  have hne : a.index k ≠ b.index k := by
    intro e
    rw [← e, CookbookVersion.Diff_self] at hd
    exact absurd hd (by simp)
  have hbk : b.index k ≠ none := by
    intro e
    obtain ⟨x, hx⟩ := Option.ne_none_iff_exists'.1 hak
    rw [e, hx] at hd
    simp [CookbookVersion.Diff] at hd
  have hE : CookbookVersion.Equals (a.index k) (b.index k) = false :=
    CookbookVersion.vEquals_eq_false hne
  have hab : a ≠ b := by
    intro e
    rw [e] at hne
    exact hne rfl
  have hok := Cookbook.NoNilReceiver_of_noNilValues a b ha
  have hother : ∀ j, j ≠ k → Cookbook.posAt a b j = none ∧ Cookbook.negAt a b j = none := by
    intro j hj
    by_cases hja : j ∈ mapKeys a.Versions
    · exact Cookbook.writes_of_equal a b j hja (ha j hja) (hagree j hja hj)
    · refine ⟨?_, Cookbook.negAt_of_not_mem a b j hja⟩
      rw [Cookbook.posAt_of_added a b j hja]
      exact b.entry_of_not_mem j (by rw [← hkeys]; exact hja)
  have hpk : Cookbook.posAt a b k = some (some p) := by
    simp only [Cookbook.posAt, Cookbook.posWrite1, hk, hak, hbk, hE, and_false, if_true,
      if_false, Bool.not_false]
    rw [hd]
  have hnk : Cookbook.negAt a b k = some (some n) := by
    simp only [Cookbook.negAt, Cookbook.negWrite1, hk, hbk, hE, if_true, if_false,
      Bool.not_false]
    rw [hd]
  have hcol := CookbookVersion.Diff_collapse _ _ _ _ hd
  have hpe : CookbookVersion.Empty (some p) = false := by
    cases h : CookbookVersion.Empty (some p) with
    | false => rfl
    | true => exact absurd (hcol.1.2 h) (by simp)
  have hne' : CookbookVersion.Empty (some n) = false := by
    cases h : CookbookVersion.Empty (some n) with
    | false => rfl
    | true => exact absurd (hcol.2.2 h) (by simp)
  have ebp : Cookbook.builtPos a b =
      { Name := "", Versions := some (GoMap.empty.set k (some p)) } := by
    refine Cookbook.ext_entry _ _ (by simp [Cookbook.builtPos, hname])
      (by simp [Cookbook.builtPos]) (by simp) ?_
    intro j
    rw [Cookbook.builtPos_entry, Cookbook.mk_entry, GoMap.lookup_set, GoMap.lookup_empty]
    by_cases hj : j = k
    · rw [if_pos hj, hj, hpk]
    · rw [if_neg hj, (hother j hj).1]
  have ebn : Cookbook.builtNeg a b =
      { Name := "", Versions := some (GoMap.empty.set k (some n)) } := by
    refine Cookbook.ext_entry _ _ (by simp [Cookbook.builtNeg, hname])
      (by simp [Cookbook.builtNeg]) (by simp) ?_
    intro j
    rw [Cookbook.builtNeg_entry, Cookbook.mk_entry, GoMap.lookup_set, GoMap.lookup_empty]
    by_cases hj : j = k
    · rw [if_pos hj, hj, hnk]
    · rw [if_neg hj, (hother j hj).2]
  have ep : Cookbook.Empty (some (Cookbook.builtPos a b)) = false :=
    Cookbook.Empty_eq_false_of_entry _ k (some p)
      (by rw [Cookbook.builtPos_entry]; exact hpk) hpe
  have en : Cookbook.Empty (some (Cookbook.builtNeg a b)) = false :=
    Cookbook.Empty_eq_false_of_entry _ k (some n)
      (by rw [Cookbook.builtNeg_entry]; exact hnk) hne'
  rw [Cookbook.Diff_eq a b hab hok, ep, en, ebp, ebn]
  simp

/-- C8, witness: scenario 4, zlib ">= 1.0" changed to ">= 2.0" in version "1.0.0". -/
theorem C8_version_changed_witness :
    cbZlib1.Name = cbZlib2.Name ∧ Cookbook.NoNilValues cbZlib1 ∧
      CookbookVersion.Diff (cbZlib1.index "1.0.0") (cbZlib2.index "1.0.0") =
        some (some (depOnly ">= 2.0"), some (depOnly ">= 1.0")) ∧
      Cookbook.Diff (some cbZlib1) (some cbZlib2) =
        some (some { Name := "",
                     Versions := some (GoMap.empty.set "1.0.0" (some (depOnly ">= 2.0"))) },
              some { Name := "",
                     Versions := some (GoMap.empty.set "1.0.0" (some (depOnly ">= 1.0"))) }) :=
  ⟨by decide, by decide, by decide,
    C8_version_changed cbZlib1 cbZlib2 "1.0.0" (depOnly ">= 2.0") (depOnly ">= 1.0")
      (by decide) (by decide) (by decide) (by decide) (by decide) (by decide)⟩

/-- C9, counterexample.  `cbFooNil` and `cbBarNil` have identical `Versions` (one key with a
nil value) and the different non-empty names "foo" and "bar"; yet the `Versions` maps of both
results hold the key "1.0.0" instead of being empty. -/
theorem C9_counterexample :
    cbFooNil.Versions = cbBarNil.Versions ∧ cbFooNil.Name ≠ cbBarNil.Name ∧
      cbFooNil.Name ≠ "" ∧ cbBarNil.Name ≠ "" ∧
      Cookbook.Diff (some cbFooNil) (some cbBarNil) =
        some (some (mkCookbook "bar" [("1.0.0", none)]),
              some (mkCookbook "foo" [("1.0.0", none)])) ∧
      Cookbook.Diff (some cbFooNil) (some cbBarNil) ≠
        some (some { Name := "bar", Versions := some GoMap.empty },
              some { Name := "foo", Versions := some GoMap.empty }) := by
  decide

/-- C9, amended.  Top-level scalar change only: for present Cookbooks `a` and `b` whose
`Versions` are identical and hold no nil value, and whose names differ and are both non-empty,
`a.Diff(b)` returns `pos` with the name of `b` and `neg` with the name of `a`, each with a
present, empty `Versions` map. -/
theorem C9_name_change_only (a b : Cookbook) (hv : a.Versions = b.Versions)
    (hnil : Cookbook.NoNilValues a)
    (hn : a.Name ≠ b.Name) (han : a.Name ≠ "") (hbn : b.Name ≠ "") :
    Cookbook.Diff (some a) (some b) =
      some (some { Name := b.Name, Versions := some GoMap.empty },
            some { Name := a.Name, Versions := some GoMap.empty }) := by
  have hab : a ≠ b := fun e => hn (by rw [e])
  have hok := Cookbook.NoNilReceiver_of_noNilValues a b hnil
  have hidx : ∀ j, a.index j = b.index j := by
    intro j
    simp only [Cookbook.index, hv]
  have hnone : ∀ j, Cookbook.posAt a b j = none ∧ Cookbook.negAt a b j = none := by
    intro j
    by_cases hja : j ∈ mapKeys a.Versions
    · exact Cookbook.writes_of_equal a b j hja (hnil j hja)
        ((CookbookVersion.vEquals_iff _ _).2 (hidx j))
    · refine ⟨?_, Cookbook.negAt_of_not_mem a b j hja⟩
      rw [Cookbook.posAt_of_added a b j hja]
      exact b.entry_of_not_mem j (by rw [← hv]; exact hja)
  have ebp : Cookbook.builtPos a b = { Name := b.Name, Versions := some GoMap.empty } := by
    refine Cookbook.ext_entry _ _ (by simp [Cookbook.builtPos, hn])
      (by simp [Cookbook.builtPos]) (by simp) ?_
    intro j
    rw [Cookbook.builtPos_entry, (hnone j).1]
    rfl
  have ebn : Cookbook.builtNeg a b = { Name := a.Name, Versions := some GoMap.empty } := by
    refine Cookbook.ext_entry _ _ (by simp [Cookbook.builtNeg, hn])
      (by simp [Cookbook.builtNeg]) (by simp) ?_
    intro j
    rw [Cookbook.builtNeg_entry, (hnone j).2]
    rfl
  rw [Cookbook.Diff_eq a b hab hok, ebp, ebn,
    Cookbook.Empty_eq_false_of_name _ (by exact hbn),
    Cookbook.Empty_eq_false_of_name _ (by exact han)]
  simp

/-- C9, witness: scenario 5, "foo" against "bar" with identical versions. -/
theorem C9_name_change_only_witness :
    cbFoo.Versions = cbBar.Versions ∧ Cookbook.NoNilValues cbFoo ∧ cbFoo.Name ≠ cbBar.Name ∧
      Cookbook.Diff (some cbFoo) (some cbBar) =
        some (some { Name := "bar", Versions := some GoMap.empty },
              some { Name := "foo", Versions := some GoMap.empty }) :=
  ⟨by decide, by decide, by decide,
    C9_name_change_only cbFoo cbBar (by decide) (by decide) (by decide) (by decide)
      (by decide)⟩

/-! ## Nil values in the built maps -/

/-- A nil value in the built `pos.Versions` is the positive half of the version-level diff of a
changed key, when neither input map holds a nil value. -/
theorem Cookbook.posAt_eq_some_none (a b : Cookbook)
    (ha : Cookbook.NoNilValues a) (hb : Cookbook.NoNilValues b) (k : String)
    (h : Cookbook.posAt a b k = some none) :
    Cookbook.Changed a b k ∧
      ∃ n, CookbookVersion.Diff (a.index k) (b.index k) = some (none, n) := by
  unfold Cookbook.posAt at h
  by_cases c1 : k ∈ mapKeys b.Versions ∧ a.index k = none
  · rw [if_pos c1] at h
    exact absurd (Option.some.inj h) (hb k c1.1)
  · rw [if_neg c1] at h
    by_cases hka : k ∈ mapKeys a.Versions
    · rw [if_pos hka] at h
      unfold Cookbook.posWrite1 at h
      by_cases hbk : b.index k = none
      · rw [if_pos hbk] at h
        exact absurd h (by simp)
      · rw [if_neg hbk] at h
        cases he : CookbookVersion.Equals (a.index k) (b.index k) with
        | true =>
          rw [he] at h
          exact absurd h (by simp)
        | false =>
          obtain ⟨x, hx⟩ := Option.ne_none_iff_exists'.1 (ha k hka)
          obtain ⟨y, hy⟩ := Option.ne_none_iff_exists'.1 hbk
          obtain ⟨p, n, hd⟩ := CookbookVersion.Diff_isSome x y
          have hd' : CookbookVersion.Diff (a.index k) (b.index k) = some (p, n) := by
            rw [hx, hy]; exact hd
          rw [hd', he] at h
          simp only [Bool.not_false, if_true, Option.some.injEq] at h
          refine ⟨⟨hka, b.mem_of_index_ne_none k hbk, he⟩, n, ?_⟩
          rw [hd', h]
    · rw [if_neg hka] at h
      exact absurd h (by simp)

/-- A nil value in the built `neg.Versions` is the negative half of the version-level diff of a
changed key, when the first input map holds no nil value. -/
theorem Cookbook.negAt_eq_some_none (a b : Cookbook)
    (ha : Cookbook.NoNilValues a) (k : String)
    (h : Cookbook.negAt a b k = some none) :
    Cookbook.Changed a b k ∧
      ∃ p, CookbookVersion.Diff (a.index k) (b.index k) = some (p, none) := by
  unfold Cookbook.negAt at h
  by_cases hka : k ∈ mapKeys a.Versions
  · rw [if_pos hka] at h
    unfold Cookbook.negWrite1 at h
    by_cases hbk : b.index k = none
    · rw [if_pos hbk] at h
      exact absurd (Option.some.inj h) (ha k hka)
    · rw [if_neg hbk] at h
      cases he : CookbookVersion.Equals (a.index k) (b.index k) with
      | true =>
        rw [he] at h
        exact absurd h (by simp)
      | false =>
        obtain ⟨x, hx⟩ := Option.ne_none_iff_exists'.1 (ha k hka)
        obtain ⟨y, hy⟩ := Option.ne_none_iff_exists'.1 hbk
        obtain ⟨p, n, hd⟩ := CookbookVersion.Diff_isSome x y
        have hd' : CookbookVersion.Diff (a.index k) (b.index k) = some (p, n) := by
          rw [hx, hy]; exact hd
        rw [hd', he] at h
        simp only [Bool.not_false, if_true, Option.some.injEq] at h
        refine ⟨⟨hka, b.mem_of_index_ne_none k hbk, he⟩, p, ?_⟩
        rw [hd', h]
  · rw [if_neg hka] at h
    exact absurd h (by simp)

/-- C10, counterexample.  Neither `cbDepA` nor `cbDepB` holds a nil value.  Version "1.1.0"
only gains a dependency, so its version-level diff has a nil negative half, and the negative
result, present because of "1.0.0", holds the key "1.1.0" with a nil value. -/
theorem C10_counterexample :
    Cookbook.NoNilValues cbDepA ∧ Cookbook.NoNilValues cbDepB ∧
      Cookbook.Diff (some cbDepA) (some cbDepB) =
        some (some (mkCookbook "" [("1.0.0", some (depOnly ">= 2.0")),
                                   ("1.1.0", some (depOnly ">= 1.0"))]),
              some (mkCookbook "" [("1.0.0", some (depOnly ">= 1.0")), ("1.1.0", none)])) ∧
      (mkCookbook "" [("1.0.0", some (depOnly ">= 1.0")), ("1.1.0", none)]).entry "1.1.0" =
        some none := by
  decide

/-- C10, amended.  For present Cookbooks `a` and `b` whose `Versions` hold no nil value, in
each non-nil result of `a.Diff(b)` a key of the result's `Versions` maps to a present value,
unless it is a changed key (in both maps, values not `Equals`) whose version-level diff is
absent on that side: that nil half is stored under the key. -/
theorem C10_nil_entries_are_diff_halves (a b : Cookbook)
    (ha : Cookbook.NoNilValues a) (hb : Cookbook.NoNilValues b)
    (pos neg : Option Cookbook) (h : Cookbook.Diff (some a) (some b) = some (pos, neg)) :
    (∀ r k, pos = some r → r.entry k = some none →
        Cookbook.Changed a b k ∧
          ∃ n, CookbookVersion.Diff (a.index k) (b.index k) = some (none, n)) ∧
      (∀ r k, neg = some r → r.entry k = some none →
        Cookbook.Changed a b k ∧
          ∃ p, CookbookVersion.Diff (a.index k) (b.index k) = some (p, none)) := by
  by_cases hab : a = b
  · subst hab
    rw [Cookbook.Diff_of_eq] at h
    simp only [Option.some.injEq, Prod.mk.injEq] at h
    constructor
    · intro r k hr
      rw [← h.1] at hr
      exact absurd hr (by simp)
    · intro r k hr
      rw [← h.2] at hr
      exact absurd hr (by simp)
  · rw [Cookbook.Diff_eq a b hab (Cookbook.NoNilReceiver_of_noNilValues a b ha)] at h
    simp only [Option.some.injEq, Prod.mk.injEq] at h
    constructor
    · intro r k hr hk
      rw [← h.1] at hr
      split_ifs at hr
      have hr' : Cookbook.builtPos a b = r := Option.some.inj hr
      rw [← hr', Cookbook.builtPos_entry] at hk
      exact Cookbook.posAt_eq_some_none a b ha hb k hk
    · intro r k hr hk
      rw [← h.2] at hr
      split_ifs at hr
      have hr' : Cookbook.builtNeg a b = r := Option.some.inj hr
      rw [← hr', Cookbook.builtNeg_entry] at hk
      exact Cookbook.negAt_eq_some_none a b ha k hk

/-- C10, witness: the snapshots `cbDepA` and `cbDepB`, with both results present. -/
theorem C10_nil_entries_are_diff_halves_witness :
    Cookbook.NoNilValues cbDepA ∧ Cookbook.NoNilValues cbDepB ∧
      Cookbook.Diff (some cbDepA) (some cbDepB) =
        some (some (mkCookbook "" [("1.0.0", some (depOnly ">= 2.0")),
                                   ("1.1.0", some (depOnly ">= 1.0"))]),
              some (mkCookbook "" [("1.0.0", some (depOnly ">= 1.0")), ("1.1.0", none)])) ∧
      ((∀ r k, some (mkCookbook "" [("1.0.0", some (depOnly ">= 2.0")),
                                    ("1.1.0", some (depOnly ">= 1.0"))]) = some r →
          r.entry k = some none →
          Cookbook.Changed cbDepA cbDepB k ∧
            ∃ n, CookbookVersion.Diff (cbDepA.index k) (cbDepB.index k) = some (none, n)) ∧
        (∀ r k, some (mkCookbook "" [("1.0.0", some (depOnly ">= 1.0")), ("1.1.0", none)])
            = some r →
          r.entry k = some none →
          Cookbook.Changed cbDepA cbDepB k ∧
            ∃ p, CookbookVersion.Diff (cbDepA.index k) (cbDepB.index k) = some (p, none))) :=
  ⟨by decide, by decide, by decide,
    C10_nil_entries_are_diff_halves cbDepA cbDepB (by decide) (by decide) _ _ (by decide)⟩

/-! ## Emptiness -/

/-- C11.  Emptiness is recursive: `c.Empty()` is true exactly when `c` is nil, or `c.Name` is
the empty string and every entry of `c.Versions` has an `Empty` value; so the Cookbook with an
empty map and the Cookbook whose one version is the zero version are both `Empty`. -/
theorem C11_empty_recursive :
    (∀ c : Option Cookbook,
        Cookbook.Empty c = true ↔
          (c = none ∨ ∃ x, c = some x ∧ x.Name = "" ∧
            ∀ k v, x.entry k = some v → CookbookVersion.Empty v = true)) ∧
      Cookbook.Empty (some cbEmptyMap) = true ∧
      Cookbook.Empty (some cbEmptyVersions) = true := by
  refine ⟨?_, by decide, by decide⟩
  intro c
  cases c with
  | none => simp [Cookbook.Empty]
  | some x =>
    rw [Cookbook.Empty_some_iff]
    constructor
    · intro h
      exact Or.inr ⟨x, rfl, h⟩
    · rintro (h | ⟨y, hy, h⟩)
      · exact absurd h (by simp)
      · rw [Option.some.inj hy]
        exact h

/-- C12, counterexample.  The Cookbook with an empty name and the one zero version under
"1.0.0" is `Empty`, but it is not the zero entity: it holds a version. -/
theorem C12_counterexample :
    ¬ (Cookbook.Empty (some cbEmptyVersions) = true ↔ Cookbook.IsZero (some cbEmptyVersions)) := by
  decide

/-- C12, amended.  For every Cookbook `x`, `x.Empty()` is true exactly when `x` is the absent
or zero entity (nil, or empty name and no versions), or `x` has an empty name and one or more
versions, all of them `Empty`.  So the equivalence of the claim holds of `x` exactly when `x`
is not such an empty-named Cookbook holding only `Empty` versions; `cbEmptyVersions` is one. -/
theorem C12_empty_iff_zero_or_only_empty (x : Option Cookbook) :
    (Cookbook.Empty x = true ↔ (Cookbook.IsZero x ∨ Cookbook.OnlyEmptyVersions x)) ∧
      ((Cookbook.Empty x = true ↔ Cookbook.IsZero x) ↔ ¬ Cookbook.OnlyEmptyVersions x) ∧
      (Cookbook.OnlyEmptyVersions (some cbEmptyVersions) ∧
        Cookbook.Empty (some cbEmptyVersions) = true) := by
  have hdisj : Cookbook.IsZero x → ¬ Cookbook.OnlyEmptyVersions x := by
    cases x with
    | none => exact fun _ h => h
    | some c => exact fun hz ho => ho.2.1 hz.2
  have h1 : Cookbook.Empty x = true ↔ (Cookbook.IsZero x ∨ Cookbook.OnlyEmptyVersions x) := by
    cases x with
    | none => simp [Cookbook.Empty, Cookbook.IsZero]
    | some c =>
      rw [Cookbook.Empty_some_iff]
      simp only [Cookbook.IsZero, Cookbook.OnlyEmptyVersions]
      constructor
      · rintro ⟨hn, hall⟩
        by_cases hk : mapKeys c.Versions = []
        · exact Or.inl ⟨hn, hk⟩
        · exact Or.inr ⟨hn, hk, fun k hmem => hall k _ (c.entry_eq_some_index k hmem)⟩
      · rintro (⟨hn, hk⟩ | ⟨hn, _, hall⟩)
        · refine ⟨hn, ?_⟩
          intro k v hv
          have hmem : k ∈ mapKeys c.Versions :=
            (c.mem_mapKeys_iff_entry k).2 (by rw [hv]; simp)
          rw [hk] at hmem
          exact absurd hmem (List.not_mem_nil _)
        · refine ⟨hn, ?_⟩
          intro k v hv
          have hmem : k ∈ mapKeys c.Versions :=
            (c.mem_mapKeys_iff_entry k).2 (by rw [hv]; simp)
          have hi := c.entry_eq_some_index k hmem
          rw [hv] at hi
          rw [Option.some.inj hi]
          exact hall k hmem
  refine ⟨h1, ?_, by decide, by decide⟩
  constructor
  · intro hiff ho
    exact hdisj (hiff.1 (h1.2 (Or.inr ho))) ho
  · intro hno
    constructor
    · intro he
      rcases h1.1 he with hz | ho
      · exact hz
      · exact absurd ho hno
    · intro hz
      exact h1.2 (Or.inl hz)

/-! ## Equality -/

/-- C14, counterexample.  The zero Cookbook (nil `Versions`) and the fresh one (empty
`Versions`) have the same name, the same (empty) key set and so equal values under every shared
key; yet they are not `Equals`. -/
theorem C14_counterexample :
    ¬ (Cookbook.Equals (some cbNilMap) (some cbEmptyMap) = true ↔
        (cbNilMap.Name = cbEmptyMap.Name ∧
          mapKeys cbNilMap.Versions = mapKeys cbEmptyMap.Versions ∧
          ∀ k ∈ mapKeys cbNilMap.Versions,
            CookbookVersion.Equals (cbNilMap.index k) (cbEmptyMap.index k) = true)) := by
  decide

/-- C14, amended.  For present Cookbooks `a` and `b`, `a.Equals(b)` is true exactly when the
names are equal, the two `Versions` maps are both nil or both non-nil, they have the same key
set, and the values under every shared key are `Equals`; so `Equals` is false whenever the
names differ. -/
theorem C14_equals_structural (a b : Cookbook) :
    (Cookbook.Equals (some a) (some b) = true ↔
        (a.Name = b.Name ∧ (a.Versions = none ↔ b.Versions = none) ∧
          (∀ k, k ∈ mapKeys a.Versions ↔ k ∈ mapKeys b.Versions) ∧
          ∀ k, k ∈ mapKeys a.Versions → k ∈ mapKeys b.Versions →
            CookbookVersion.Equals (a.index k) (b.index k) = true)) ∧
      (a.Name ≠ b.Name → Cookbook.Equals (some a) (some b) = false) := by
  have hiff : Cookbook.Equals (some a) (some b) = true ↔
      (a.Name = b.Name ∧ (a.Versions = none ↔ b.Versions = none) ∧
        (∀ k, k ∈ mapKeys a.Versions ↔ k ∈ mapKeys b.Versions) ∧
        ∀ k, k ∈ mapKeys a.Versions → k ∈ mapKeys b.Versions →
          CookbookVersion.Equals (a.index k) (b.index k) = true) := by
    rw [Cookbook.Equals_iff]
    constructor
    · intro e
      have e' : a = b := Option.some.inj e
      subst e'
      exact ⟨rfl, Iff.rfl, fun _ => Iff.rfl, fun k _ _ => (CookbookVersion.vEquals_iff _ _).2 rfl⟩
    · rintro ⟨hn, hnil, hkeys, hvals⟩
      have hent : ∀ k, a.entry k = b.entry k := by
        intro k
        by_cases hka : k ∈ mapKeys a.Versions
        · have hkb := (hkeys k).1 hka
          rw [a.entry_eq_some_index k hka, b.entry_eq_some_index k hkb,
            (CookbookVersion.vEquals_iff _ _).1 (hvals k hka hkb)]
        · have hkb : k ∉ mapKeys b.Versions := fun h => hka ((hkeys k).2 h)
          rw [a.entry_of_not_mem k hka, b.entry_of_not_mem k hkb]
      by_cases ha : a.Versions = none
      · have hb := hnil.1 ha
        obtain ⟨an, av⟩ := a
        obtain ⟨bn, bv⟩ := b
        simp only at hn ha hb
        rw [hn, ha, hb]
      · have hb : b.Versions ≠ none := fun h => ha (hnil.2 h)
        rw [Cookbook.ext_entry a b hn ha hb hent]
  refine ⟨hiff, ?_⟩
  intro hne
  cases h : Cookbook.Equals (some a) (some b) with
  | false => rfl
  | true => exact absurd (hiff.1 h).1 hne

/-- C15.  Symmetry of equality: `x.Equals(y) = y.Equals(x)` for every two Cookbook pointers. -/
theorem C15_equals_symmetric (x y : Option Cookbook) :
    Cookbook.Equals x y = Cookbook.Equals y x := by
  by_cases h : x = y
  · rw [h]
  · rw [Cookbook.Equals_eq_false h, Cookbook.Equals_eq_false (Ne.symm h)]

/-! ## Totality and construction -/

/-- C16.  `Diff` is total: on present Cookbooks whose `Versions` hold no nil value, `a.Diff(b)`
returns a pair of results, with no fault. -/
theorem C16_diff_total (a b : Cookbook)
    (ha : Cookbook.NoNilValues a) (hb : Cookbook.NoNilValues b) :
    ∃ pos neg, Cookbook.Diff (some a) (some b) = some (pos, neg) ∧
      Cookbook.Diff (some b) (some a) ≠ none := by
  by_cases heq : a = b
  · subst heq
    exact ⟨none, none, Cookbook.Diff_of_eq _, by rw [Cookbook.Diff_of_eq]; simp⟩
  · refine ⟨_, _, Cookbook.Diff_eq a b heq (Cookbook.NoNilReceiver_of_noNilValues a b ha), ?_⟩
    rw [Cookbook.Diff_eq b a (Ne.symm heq) (Cookbook.NoNilReceiver_of_noNilValues b a hb)]
    simp

/-- C16, witness: the two snapshots with one key of each class. -/
theorem C16_diff_total_witness :
    Cookbook.NoNilValues cbOld ∧ Cookbook.NoNilValues cbNew ∧
      ∃ pos neg, Cookbook.Diff (some cbOld) (some cbNew) = some (pos, neg) ∧
        Cookbook.Diff (some cbNew) (some cbOld) ≠ none :=
  ⟨by decide, by decide, C16_diff_total cbOld cbNew (by decide) (by decide)⟩

/-- C18.  `NewCookbook` returns a present Cookbook whose name is the empty string and whose
`Versions` is an empty, non-nil map; it is `Empty`. -/
theorem C18_new_cookbook :
    ∃ c, NewCookbook = some c ∧ c.Name = "" ∧ c.Versions = some GoMap.empty ∧
      c.Versions ≠ none ∧ mapKeys c.Versions = [] ∧ Cookbook.Empty NewCookbook = true :=
  ⟨{ Name := "", Versions := some GoMap.empty }, rfl, rfl, rfl, by simp, rfl, by decide⟩

/-! ## Diffing two empty Cookbooks -/

theorem CookbookVersion.vEmpty_some_iff (v : CookbookVersion) :
    CookbookVersion.Empty (some v) = true ↔
      v.LocationType = "" ∧ v.LocationPath = "" ∧ v.DownloadURL = "" ∧
        ∀ k s, mapLookup v.Dependencies k = some s → s = "" := by
  simp only [CookbookVersion.Empty, Bool.and_eq_true, beq_iff_eq, List.all_eq_true, and_assoc]
  refine and_congr_right (fun _ => and_congr_right (fun _ => and_congr_right (fun _ => ?_)))
  constructor
  · intro h k s hs
    have := h k (mem_mapKeys_of_lookup hs)
    rw [hs] at this
    simpa using this
  · intro h k _
    cases hs : mapLookup v.Dependencies k with
    | none => rfl
    | some s => simp [h k s hs]

/-- The version-level diff of two present, `Empty` versions is `(nil, nil)`. -/
theorem CookbookVersion.Diff_of_empty (x y : CookbookVersion)
    (hx : CookbookVersion.Empty (some x) = true) (hy : CookbookVersion.Empty (some y) = true) :
    CookbookVersion.Diff (some x) (some y) = some (none, none) := by
  by_cases he : CookbookVersion.Equals (some x) (some y) = true
  · simp only [CookbookVersion.Diff, he, if_true]
  · obtain ⟨x1, x2, x3, x4⟩ := (CookbookVersion.vEmpty_some_iff x).1 hx
    obtain ⟨y1, y2, y3, y4⟩ := (CookbookVersion.vEmpty_some_iff y).1 hy
    have hp : CookbookVersion.Empty (some
        { LocationType := if x.LocationType ≠ y.LocationType then y.LocationType
            else NewCookbookVersion.LocationType,
          LocationPath := if x.LocationPath ≠ y.LocationPath then y.LocationPath
            else NewCookbookVersion.LocationPath,
          DownloadURL := if x.DownloadURL ≠ y.DownloadURL then y.DownloadURL
            else NewCookbookVersion.DownloadURL,
          Dependencies := some (CookbookVersion.diffDeps x.Dependencies y.Dependencies).1 })
        = true := by
      rw [CookbookVersion.vEmpty_some_iff]
      refine ⟨by simp [x1, y1, NewCookbookVersion], by simp [x2, y2, NewCookbookVersion],
        by simp [x3, y3, NewCookbookVersion], ?_⟩
      intro k s hs0
      have hs : (CookbookVersion.diffDeps x.Dependencies y.Dependencies).1.lookup k = some s :=
        hs0
      rw [CookbookVersion.diffDeps_fst_lookup] at hs
      cases h1 : mapLookup x.Dependencies k with
      | none =>
        cases h2 : mapLookup y.Dependencies k with
        | none => rw [h1, h2] at hs; exact absurd hs (by simp)
        | some b =>
          rw [h1, h2] at hs
          simp only [Option.some.injEq] at hs
          rw [← hs]; exact y4 k b h2
      | some a =>
        cases h2 : mapLookup y.Dependencies k with
        | none => rw [h1, h2] at hs; exact absurd hs (by simp)
        | some b =>
          rw [h1, h2] at hs
          simp only at hs
          split_ifs at hs
          simp only [Option.some.injEq] at hs
          rw [← hs]; exact y4 k b h2
    have hn : CookbookVersion.Empty (some
        { LocationType := if x.LocationType ≠ y.LocationType then x.LocationType
            else NewCookbookVersion.LocationType,
          LocationPath := if x.LocationPath ≠ y.LocationPath then x.LocationPath
            else NewCookbookVersion.LocationPath,
          DownloadURL := if x.DownloadURL ≠ y.DownloadURL then x.DownloadURL
            else NewCookbookVersion.DownloadURL,
          Dependencies := some (CookbookVersion.diffDeps x.Dependencies y.Dependencies).2 })
        = true := by
      rw [CookbookVersion.vEmpty_some_iff]
      refine ⟨by simp [x1, y1, NewCookbookVersion], by simp [x2, y2, NewCookbookVersion],
        by simp [x3, y3, NewCookbookVersion], ?_⟩
      intro k s hs0
      have hs : (CookbookVersion.diffDeps x.Dependencies y.Dependencies).2.lookup k = some s :=
        hs0
      rw [CookbookVersion.diffDeps_snd_lookup] at hs
      cases h1 : mapLookup x.Dependencies k with
      | none => rw [h1] at hs; exact absurd hs (by simp)
      | some a =>
        cases h2 : mapLookup y.Dependencies k with
        | none =>
          rw [h1, h2] at hs
          simp only [Option.some.injEq] at hs
          rw [← hs]; exact x4 k a h1
        | some b =>
          rw [h1, h2] at hs
          simp only at hs
          split_ifs at hs
          simp only [Option.some.injEq] at hs
          rw [← hs]; exact x4 k a h1
    simp only [CookbookVersion.Diff, he, hp, hn, if_true]
    simp

/-- C13, counterexample.  `cbEmptyNil` (one key with a nil version) and `cbEmptyVersions` (the
same key with the zero version) are both `Empty` and not `Equals`; the first loop calls the
version-level `Diff` on the nil version with a present argument, and `Diff` has no result. -/
theorem C13_counterexample :
    Cookbook.Empty (some cbEmptyNil) = true ∧ Cookbook.Empty (some cbEmptyVersions) = true ∧
      Cookbook.Equals (some cbEmptyNil) (some cbEmptyVersions) = false ∧
      Cookbook.Diff (some cbEmptyNil) (some cbEmptyVersions) = none ∧
      Cookbook.Diff (some cbEmptyNil) (some cbEmptyVersions) ≠ some (none, none) := by
  decide

/-- C13, amended.  Both-empty collapse: for present Cookbooks `a` and `b` that are both `Empty`,
where no key holds a nil version in `a` and a present one in `b`, `a.Diff(b)` returns
`(nil, nil)`, also when `a.Equals(b)` is false. -/
theorem C13_both_empty_collapse (a b : Cookbook)
    (ha : Cookbook.Empty (some a) = true) (hb : Cookbook.Empty (some b) = true)
    (hok : Cookbook.NoNilReceiver a b (mapKeys a.Versions)) :
    Cookbook.Diff (some a) (some b) = some (none, none) := by
  by_cases heq : a = b
  · rw [heq]; exact Cookbook.Diff_of_eq _
  · obtain ⟨han, hav⟩ := (Cookbook.Empty_some_iff a).1 ha
    obtain ⟨hbn, hbv⟩ := (Cookbook.Empty_some_iff b).1 hb
    have hai : ∀ k, k ∈ mapKeys a.Versions → CookbookVersion.Empty (a.index k) = true :=
      fun k hk => hav k _ (a.entry_eq_some_index k hk)
    have hbi : ∀ k, k ∈ mapKeys b.Versions → CookbookVersion.Empty (b.index k) = true :=
      fun k hk => hbv k _ (b.entry_eq_some_index k hk)
    have hsub : ∀ k, k ∈ mapKeys a.Versions → b.index k ≠ none →
        CookbookVersion.Diff (a.index k) (b.index k) = some (none, none) := by
      intro k hka hbk
      have hak : a.index k ≠ none := hok k hka hbk
      obtain ⟨x, hx⟩ := Option.ne_none_iff_exists'.1 hak
      obtain ⟨y, hy⟩ := Option.ne_none_iff_exists'.1 hbk
      have h1 := hai k hka
      have h2 := hbi k (b.mem_of_index_ne_none k hbk)
      rw [hx] at h1 ⊢
      rw [hy] at h2 ⊢
      exact CookbookVersion.Diff_of_empty x y h1 h2
    have ep : Cookbook.Empty (some (Cookbook.builtPos a b)) = true := by
      rw [Cookbook.Empty_some_iff]
      refine ⟨by simp [Cookbook.builtPos, han, hbn], ?_⟩
      intro k v hv
      rw [Cookbook.builtPos_entry] at hv
      unfold Cookbook.posAt at hv
      split_ifs at hv with c1 hka
      · rw [← Option.some.inj hv]
        exact hbi k c1.1
      · unfold Cookbook.posWrite1 at hv
        split_ifs at hv with hbk he
        rw [hsub k hka hbk] at hv
        rw [← Option.some.inj hv]
        rfl
    have en : Cookbook.Empty (some (Cookbook.builtNeg a b)) = true := by
      rw [Cookbook.Empty_some_iff]
      refine ⟨by simp [Cookbook.builtNeg, han, hbn], ?_⟩
      intro k v hv
      rw [Cookbook.builtNeg_entry] at hv
      unfold Cookbook.negAt at hv
      split_ifs at hv with hka
      unfold Cookbook.negWrite1 at hv
      split_ifs at hv with hbk he
      · rw [← Option.some.inj hv]
        exact hai k hka
      · rw [hsub k hka hbk] at hv
        rw [← Option.some.inj hv]
        rfl
    rw [Cookbook.Diff_eq a b heq hok, ep, en]
    simp

/-- C13, witness: the zero Cookbook (nil map) against the fresh one (empty map). -/
theorem C13_both_empty_collapse_witness :
    Cookbook.Empty (some cbNilMap) = true ∧ Cookbook.Empty (some cbEmptyMap) = true ∧
      Cookbook.Equals (some cbNilMap) (some cbEmptyMap) = false ∧
      Cookbook.Diff (some cbNilMap) (some cbEmptyMap) = some (none, none) :=
  ⟨by decide, by decide, by decide,
    C13_both_empty_collapse cbNilMap cbEmptyMap (by decide) (by decide) (by decide)⟩

/-! ## Adding the same entry to both Cookbooks -/

theorem Cookbook.withEntry_entry (c : Cookbook) (k : String) (v : Option CookbookVersion)
    (j : String) : (c.withEntry k v).entry j = if j = k then some v else c.entry j := by
  unfold Cookbook.withEntry Cookbook.entry
  cases hv : c.Versions with
  | none => simp only [mapLookup, GoMap.lookup_set, GoMap.lookup_empty]
  | some m => simp only [mapLookup, GoMap.lookup_set]

theorem Cookbook.withEntry_index (c : Cookbook) (k : String) (v : Option CookbookVersion)
    (j : String) : (c.withEntry k v).index j = if j = k then v else c.index j := by
  rw [Cookbook.index_eq, Cookbook.index_eq, Cookbook.withEntry_entry]
  split_ifs <;> rfl

theorem Cookbook.mem_mapKeys_withEntry (c : Cookbook) (k : String)
    (v : Option CookbookVersion) (j : String) :
    j ∈ mapKeys (c.withEntry k v).Versions ↔ j = k ∨ j ∈ mapKeys c.Versions := by
  rw [Cookbook.mem_mapKeys_iff_entry, Cookbook.mem_mapKeys_iff_entry, Cookbook.withEntry_entry]
  by_cases hj : j = k
  · simp [hj]
  · simp [hj]

/-- Two present Cookbooks with the same name and the same entry under every key have the diff
`(nil, nil)` (they can differ only in one `Versions` being nil and the other empty). -/
theorem Cookbook.Diff_of_same_entries (a b : Cookbook) (hn : a.Name = b.Name)
    (he : ∀ j, a.entry j = b.entry j) :
    Cookbook.Diff (some a) (some b) = some (none, none) := by
  by_cases heq : a = b
  · rw [heq]; exact Cookbook.Diff_of_eq _
  · have hidx : ∀ j, a.index j = b.index j := by
      intro j
      rw [Cookbook.index_eq, Cookbook.index_eq, he j]
    have hok : Cookbook.NoNilReceiver a b (mapKeys a.Versions) := by
      intro j _ hj
      rw [hidx j]; exact hj
    have hE : ∀ j, CookbookVersion.Equals (a.index j) (b.index j) = true :=
      fun j => (CookbookVersion.vEquals_iff _ _).2 (hidx j)
    have ep : Cookbook.Empty (some (Cookbook.builtPos a b)) = true := by
      rw [Cookbook.Empty_some_iff]
      refine ⟨by simp [Cookbook.builtPos, hn], ?_⟩
      intro j v hv
      rw [Cookbook.builtPos_entry] at hv
      unfold Cookbook.posAt at hv
      split_ifs at hv with c1 hja
      · rw [← Option.some.inj hv, ← hidx j, c1.2]
        rfl
      · unfold Cookbook.posWrite1 at hv
        simp only [hE j, Bool.not_true, Bool.false_eq_true, if_false] at hv
        split_ifs at hv
    have en : Cookbook.Empty (some (Cookbook.builtNeg a b)) = true := by
      rw [Cookbook.Empty_some_iff]
      refine ⟨by simp [Cookbook.builtNeg, hn], ?_⟩
      intro j v hv
      rw [Cookbook.builtNeg_entry] at hv
      unfold Cookbook.negAt at hv
      split_ifs at hv with hja
      unfold Cookbook.negWrite1 at hv
      simp only [hE j, Bool.not_true, Bool.false_eq_true, if_false] at hv
      split_ifs at hv with hbj
      rw [← Option.some.inj hv, hidx j, hbj]
      rfl
    rw [Cookbook.Diff_eq a b heq hok, ep, en]
    simp

/-- C19.  Unchanged entries do not influence the diff: for present Cookbooks `a` and `b`, a key
`k` in neither `Versions` map and a present version `v`, adding `k -> v` to both maps leaves
the result of `a.Diff(b)` as it was. -/
theorem C19_unchanged_entry_ignored (a b : Cookbook) (k : String) (v : CookbookVersion)
    (hka : k ∉ mapKeys a.Versions) (hkb : k ∉ mapKeys b.Versions) :
    Cookbook.Diff (some (a.withEntry k (some v))) (some (b.withEntry k (some v))) =
      Cookbook.Diff (some a) (some b) := by
  have hia : ∀ j, j ≠ k → (a.withEntry k (some v)).index j = a.index j := by
    intro j hj; rw [Cookbook.withEntry_index, if_neg hj]
  have hib : ∀ j, j ≠ k → (b.withEntry k (some v)).index j = b.index j := by
    intro j hj; rw [Cookbook.withEntry_index, if_neg hj]
  have hiak : (a.withEntry k (some v)).index k = some v := by
    rw [Cookbook.withEntry_index, if_pos rfl]
  have hibk : (b.withEntry k (some v)).index k = some v := by
    rw [Cookbook.withEntry_index, if_pos rfl]
  have hak : a.index k = none := a.index_of_not_mem k hka
  have hbk : b.index k = none := b.index_of_not_mem k hkb
  by_cases hab : a = b
  · rw [hab, Cookbook.Diff_of_eq, Cookbook.Diff_of_eq]
  · by_cases hab' : a.withEntry k (some v) = b.withEntry k (some v)
    · rw [hab', Cookbook.Diff_of_eq]
      refine (Cookbook.Diff_of_same_entries a b ?_ ?_).symm
      · have := congrArg Cookbook.Name hab'
        exact this
      · intro j
        by_cases hj : j = k
        · rw [hj, a.entry_of_not_mem k hka, b.entry_of_not_mem k hkb]
        · have := congrArg (fun c => Cookbook.entry c j) hab'
          simp only [Cookbook.withEntry_entry, if_neg hj] at this
          exact this
    · have hpos : ∀ j, Cookbook.posAt (a.withEntry k (some v)) (b.withEntry k (some v)) j =
          Cookbook.posAt a b j := by
        intro j
        by_cases hj : j = k
        · subst hj
          have hE : CookbookVersion.Equals (some v) (some v) = true :=
            (CookbookVersion.vEquals_iff _ _).2 rfl
          simp [Cookbook.posAt, Cookbook.posWrite1, Cookbook.mem_mapKeys_withEntry, hiak, hibk,
            hka, hkb, hE]
        · simp only [Cookbook.posAt, Cookbook.posWrite1, Cookbook.mem_mapKeys_withEntry,
            hia j hj, hib j hj, hj, false_or]
      have hneg : ∀ j, Cookbook.negAt (a.withEntry k (some v)) (b.withEntry k (some v)) j =
          Cookbook.negAt a b j := by
        intro j
        by_cases hj : j = k
        · subst hj
          have hE : CookbookVersion.Equals (some v) (some v) = true :=
            (CookbookVersion.vEquals_iff _ _).2 rfl
          simp [Cookbook.negAt, Cookbook.negWrite1, Cookbook.mem_mapKeys_withEntry, hiak, hibk,
            hka, hE]
        · simp only [Cookbook.negAt, Cookbook.negWrite1, Cookbook.mem_mapKeys_withEntry,
            hia j hj, hib j hj, hj, false_or]
      have ebp : Cookbook.builtPos (a.withEntry k (some v)) (b.withEntry k (some v)) =
          Cookbook.builtPos a b := by
        refine Cookbook.ext_entry _ _ rfl (by simp [Cookbook.builtPos])
          (by simp [Cookbook.builtPos]) ?_
        intro j
        rw [Cookbook.builtPos_entry, Cookbook.builtPos_entry, hpos j]
      have ebn : Cookbook.builtNeg (a.withEntry k (some v)) (b.withEntry k (some v)) =
          Cookbook.builtNeg a b := by
        refine Cookbook.ext_entry _ _ rfl (by simp [Cookbook.builtNeg])
          (by simp [Cookbook.builtNeg]) ?_
        intro j
        rw [Cookbook.builtNeg_entry, Cookbook.builtNeg_entry, hneg j]
      have hokiff : Cookbook.NoNilReceiver (a.withEntry k (some v)) (b.withEntry k (some v))
          (mapKeys (a.withEntry k (some v)).Versions) ↔
          Cookbook.NoNilReceiver a b (mapKeys a.Versions) := by
        constructor
        · intro h j hj hbj
          have hjk : j ≠ k := fun e => hka (e ▸ hj)
          have := h j ((Cookbook.mem_mapKeys_withEntry a k (some v) j).2 (Or.inr hj))
            (by rw [hib j hjk]; exact hbj)
          rw [hia j hjk] at this
          exact this
        · intro h j hj hbj
          by_cases hjk : j = k
          · rw [hjk, hiak]; simp
          · rw [hia j hjk]
            rw [hib j hjk] at hbj
            rcases (Cookbook.mem_mapKeys_withEntry a k (some v) j).1 hj with e | e
            · exact absurd e hjk
            · exact h j e hbj
      by_cases hok : Cookbook.NoNilReceiver a b (mapKeys a.Versions)
      · rw [Cookbook.Diff_eq _ _ hab' (hokiff.2 hok), Cookbook.Diff_eq a b hab hok, ebp, ebn]
      · rw [Cookbook.Diff_fault _ _ (fun h => hok (hokiff.1 h)), Cookbook.Diff_fault a b hok]

/-- C19, witness: the unchanged version "0.1.0" added to both snapshots of scenario 2. -/
theorem C19_unchanged_entry_ignored_witness :
    "0.1.0" ∉ mapKeys cbOne.Versions ∧ "0.1.0" ∉ mapKeys cbTwo.Versions ∧
      Cookbook.Diff (some (cbOne.withEntry "0.1.0" (some vPlain)))
          (some (cbTwo.withEntry "0.1.0" (some vPlain))) =
        Cookbook.Diff (some cbOne) (some cbTwo) :=
  ⟨by decide, by decide,
    C19_unchanged_entry_ignored cbOne cbTwo "0.1.0" vPlain (by decide) (by decide)⟩

/-! ## Key presence is a nil test -/

/-- C20.  When `a.Versions[k]` is a present version `x` and `b.Versions` holds `k` with a nil
value, the Cookbooks are not `Equals` and `Diff` treats `k` as removed: the iteration of the
first loop at `k` only assigns `neg.Versions[k] = a.Versions[k]` (no version-level `Diff`), the
iteration of the second loop at `k` writes nothing, and whenever the two Cookbooks are built
(which they are when no other key faults) `neg.Versions` holds `k -> x` and `pos.Versions` has
no entry for `k`. -/
theorem C20_nil_value_is_removed (a b : Cookbook) (k : String) (x : CookbookVersion)
    (hak : a.index k = some x) (hbk : b.entry k = some none) :
    Cookbook.Equals (some a) (some b) = false ∧
      (∀ ks pos neg, Cookbook.diffLoop1 a b (k :: ks) (pos, neg) =
        (match neg.assign k (some x) with
          | none => none
          | some neg1 => Cookbook.diffLoop1 a b ks (pos, neg1))) ∧
      (∀ ks pos, Cookbook.diffLoop2 a b (k :: ks) pos = Cookbook.diffLoop2 a b ks pos) ∧
      (∀ pos neg, Cookbook.diffBuild (some a) (some b) = some (pos, neg) →
        neg.entry k = some (some x) ∧ pos.entry k = none) ∧
      (Cookbook.NoNilReceiver a b (mapKeys a.Versions) →
        ∃ pos neg, Cookbook.diffBuild (some a) (some b) = some (pos, neg)) := by
  have hbi : b.index k = none := by
    rw [Cookbook.index_eq, hbk]
  have hane : a.index k ≠ none := by rw [hak]; simp
  have hka : k ∈ mapKeys a.Versions := a.mem_of_index_ne_none k hane
  refine ⟨?_, ?_, ?_, ?_, ?_⟩
  · apply Cookbook.Equals_eq_false
    intro e
    have e' : a = b := Option.some.inj e
    rw [e', hbi] at hak
    exact absurd hak (by simp)
  · intro ks pos neg
    simp only [Cookbook.diffLoop1, hbi, if_true, hak]
  · intro ks pos
    simp only [Cookbook.diffLoop2, hak, reduceCtorEq, if_false]
  · intro pos neg h
    by_cases hok : Cookbook.NoNilReceiver a b (mapKeys a.Versions)
    · rw [Cookbook.diffBuild_eq a b hok] at h
      simp only [Option.some.injEq, Prod.mk.injEq] at h
      rw [← h.1, ← h.2, Cookbook.builtPos_entry, Cookbook.builtNeg_entry]
      constructor
      · simp [Cookbook.negAt, Cookbook.negWrite1, hka, hbi, hak]
      · simp [Cookbook.posAt, Cookbook.posWrite1, hka, hbi, hak]
    · rw [Cookbook.diffBuild_fault a b hok] at h
      exact absurd h (by simp)
  · intro hok
    exact ⟨_, _, Cookbook.diffBuild_eq a b hok⟩

/-- C20, witness: version "1.0.0" present in `cbPresent`, nil in `cbNilled`. -/
theorem C20_nil_value_is_removed_witness :
    cbPresent.index "1.0.0" = some vPlain ∧ cbNilled.entry "1.0.0" = some none ∧
      Cookbook.diffBuild (some cbPresent) (some cbNilled) =
        some (mkCookbook "" [], mkCookbook "" [("1.0.0", some vPlain)]) ∧
      (Cookbook.Equals (some cbPresent) (some cbNilled) = false ∧
        (∀ ks pos neg, Cookbook.diffLoop1 cbPresent cbNilled ("1.0.0" :: ks) (pos, neg) =
          (match neg.assign "1.0.0" (some vPlain) with
            | none => none
            | some neg1 => Cookbook.diffLoop1 cbPresent cbNilled ks (pos, neg1))) ∧
        (∀ ks pos, Cookbook.diffLoop2 cbPresent cbNilled ("1.0.0" :: ks) pos =
          Cookbook.diffLoop2 cbPresent cbNilled ks pos) ∧
        (∀ pos neg, Cookbook.diffBuild (some cbPresent) (some cbNilled) = some (pos, neg) →
          neg.entry "1.0.0" = some (some vPlain) ∧ pos.entry "1.0.0" = none) ∧
        (Cookbook.NoNilReceiver cbPresent cbNilled (mapKeys cbPresent.Versions) →
          ∃ pos neg, Cookbook.diffBuild (some cbPresent) (some cbNilled) = some (pos, neg))) :=
  ⟨by decide, by decide, by decide,
    C20_nil_value_is_removed cbPresent cbNilled "1.0.0" vPlain (by decide) (by decide)⟩

/-! ## Insertion order and enumeration order -/

theorem GoMap.lookup_foldl_set {V : Type} (vs : List (String × V))
    (hnd : (vs.map Prod.fst).Nodup) (m : GoMap V) (k : String) :
    (∀ v, (k, v) ∈ vs → (vs.foldl (fun acc p => acc.set p.1 p.2) m).lookup k = some v) ∧
      (k ∉ vs.map Prod.fst →
        (vs.foldl (fun acc p => acc.set p.1 p.2) m).lookup k = m.lookup k) := by
  induction vs generalizing m with
  | nil => exact ⟨fun v hv => absurd hv (List.not_mem_nil _), fun _ => rfl⟩
  | cons p tl ih =>
    have hnd' : (tl.map Prod.fst).Nodup := (List.nodup_cons.1 hnd).2
    have hp : p.1 ∉ tl.map Prod.fst := (List.nodup_cons.1 hnd).1
    simp only [List.foldl_cons]
    constructor
    · intro v hv
      rcases List.mem_cons.1 hv with e | e
      · have hk : k ∉ tl.map Prod.fst := by rw [← e] at hp; exact hp
        rw [(ih hnd' (m.set p.1 p.2)).2 hk, ← e]
        exact GoMap.lookup_set_self m k v
      · exact (ih hnd' (m.set p.1 p.2)).1 v e
    · intro hk
      have hk' : k ∉ tl.map Prod.fst := fun h => hk (List.mem_cons_of_mem _ h)
      have hne : k ≠ p.1 := fun e => hk (by rw [e]; exact List.mem_cons_self _ _)
      rw [(ih hnd' (m.set p.1 p.2)).2 hk']
      exact GoMap.lookup_set_ne m p.2 hne

/-- Writing the same entries (distinct keys) in another order builds the same map. -/
theorem GoMap.foldl_set_perm {V : Type} (vs vs' : List (String × V)) (hperm : vs.Perm vs')
    (hnd : (vs.map Prod.fst).Nodup) (m : GoMap V) :
    vs'.foldl (fun acc p => acc.set p.1 p.2) m = vs.foldl (fun acc p => acc.set p.1 p.2) m := by
  have hnd' : (vs'.map Prod.fst).Nodup := (hperm.map Prod.fst).nodup_iff.1 hnd
  apply GoMap.ext_lookup
  intro k
  by_cases hk : k ∈ vs.map Prod.fst
  · obtain ⟨p, hp, hpk⟩ := List.mem_map.1 hk
    have hmem : (k, p.2) ∈ vs := by rw [← hpk]; exact hp
    rw [(GoMap.lookup_foldl_set vs hnd m k).1 p.2 hmem,
      (GoMap.lookup_foldl_set vs' hnd' m k).1 p.2 (hperm.mem_iff.1 hmem)]
  · have hk' : k ∉ vs'.map Prod.fst := fun h => hk ((hperm.map Prod.fst).mem_iff.2 h)
    rw [(GoMap.lookup_foldl_set vs hnd m k).2 hk, (GoMap.lookup_foldl_set vs' hnd' m k).2 hk']

theorem mkCookbook_perm (name : String) (vs vs' : List (String × Option CookbookVersion))
    (hperm : vs.Perm vs') (hnd : (vs.map Prod.fst).Nodup) :
    mkCookbook name vs' = mkCookbook name vs := by
  unfold mkCookbook
  rw [GoMap.foldl_set_perm vs vs' hperm hnd]

theorem GoMap.writes_perm {V : Type} (W : String → Option V) (ks ks' : List String)
    (hperm : ks'.Perm ks) (m : GoMap V) : GoMap.writes W ks' m = GoMap.writes W ks m := by
  apply GoMap.ext_lookup
  intro k
  rw [GoMap.lookup_writes, GoMap.lookup_writes]
  by_cases hk : k ∈ ks
  · rw [if_pos hk, if_pos (hperm.mem_iff.2 hk)]
  · rw [if_neg hk, if_neg (fun h => hk (hperm.mem_iff.1 h))]

theorem List.any_perm_eq {α : Type} (f : α → Bool) (l l' : List α) (hperm : l'.Perm l) :
    l'.any f = l.any f := by
  rw [Bool.eq_iff_iff, List.any_eq_true, List.any_eq_true]
  constructor
  · rintro ⟨x, hx, hf⟩
    exact ⟨x, hperm.mem_iff.1 hx, hf⟩
  · rintro ⟨x, hx, hf⟩
    exact ⟨x, hperm.mem_iff.2 hx, hf⟩

theorem deepEqualMapIn_eq {V : Type} (o : List String → List String) (ho : IsOrder o)
    (veq : V → V → Bool) (a b : Option (GoMap V)) :
    deepEqualMapIn o veq a b = deepEqualMap veq a b := by
  cases a with
  | none => cases b <;> rfl
  | some m1 =>
    cases b with
    | none => rfl
    | some m2 =>
      simp only [deepEqualMapIn, deepEqualMap]
      congr 1
      rw [Bool.eq_iff_iff, List.all_eq_true, List.all_eq_true]
      constructor
      · rintro h ⟨k, v⟩ hp
        have hk : k ∈ o m1.keys :=
          (ho m1.keys).mem_iff.2 (List.mem_map.2 ⟨(k, v), hp, rfl⟩)
        have := h k hk
        rw [(GoMap.lookup_eq_some_iff m1 k v).2 hp] at this
        cases h2 : m2.lookup k with
        | none => rw [h2] at this; exact absurd this (by simp)
        | some v2 => rw [h2] at this; simpa [h2] using this
      · intro h k hk
        obtain ⟨p, hp, hpk⟩ := List.mem_map.1 ((ho m1.keys).mem_iff.1 hk)
        have := h p hp
        have hl : m1.lookup k = some p.2 :=
          (GoMap.lookup_eq_some_iff m1 k p.2).2 (by rw [← hpk]; exact hp)
        rw [hl]
        rw [hpk] at this
        cases h2 : m2.lookup k with
        | none => rw [h2] at this; exact absurd this (by simp)
        | some v2 => rw [h2] at this; simpa using this

theorem Cookbook.EqualsIn_eq (o : List String → List String) (ho : IsOrder o)
    (x y : Option Cookbook) : Cookbook.EqualsIn o x y = Cookbook.Equals x y := by
  unfold Cookbook.EqualsIn Cookbook.Equals
  congr 1
  funext a b
  rw [deepEqualMapIn_eq o ho]
  rfl

theorem Cookbook.EmptyIn_eq (o : List String → List String) (ho : IsOrder o)
    (x : Option Cookbook) : Cookbook.EmptyIn o x = Cookbook.Empty x := by
  cases x with
  | none => rfl
  | some c =>
    simp only [Cookbook.EmptyIn, Cookbook.Empty]
    rw [List.any_perm_eq _ _ _ (ho (mapKeys c.Versions))]

/-- The first loop from fresh maps gives the same result in every order of the keys. -/
theorem Cookbook.diffLoop1_perm (c1 c2 : Cookbook) (ks ks' : List String)
    (hperm : ks'.Perm ks) (pos neg : Cookbook) (pm nm : GoMap (Option CookbookVersion))
    (hp : pos.Versions = some pm) (hn : neg.Versions = some nm) :
    Cookbook.diffLoop1 c1 c2 ks' (pos, neg) = Cookbook.diffLoop1 c1 c2 ks (pos, neg) := by
  by_cases hok : Cookbook.NoNilReceiver c1 c2 ks
  · have hok' : Cookbook.NoNilReceiver c1 c2 ks' :=
      fun k hk => hok k (hperm.mem_iff.1 hk)
    rw [Cookbook.diffLoop1_eq c1 c2 ks pos neg pm nm hp hn hok,
      Cookbook.diffLoop1_eq c1 c2 ks' pos neg pm nm hp hn hok',
      GoMap.writes_perm _ ks ks' hperm, GoMap.writes_perm _ ks ks' hperm]
  · have hf : ∃ k ∈ ks, c2.index k ≠ none ∧ c1.index k = none := by
      unfold Cookbook.NoNilReceiver at hok
      push_neg at hok
      exact hok
    have hf' : ∃ k ∈ ks', c2.index k ≠ none ∧ c1.index k = none := by
      obtain ⟨k, hk, h⟩ := hf
      exact ⟨k, hperm.mem_iff.2 hk, h⟩
    rw [Cookbook.diffLoop1_fault c1 c2 ks hf, Cookbook.diffLoop1_fault c1 c2 ks' hf']

/-- The second loop gives the same result in every order of the keys. -/
theorem Cookbook.diffLoop2_perm (c1 c2 : Cookbook) (ks ks' : List String)
    (hperm : ks'.Perm ks) (pos : Cookbook) (pm : GoMap (Option CookbookVersion))
    (hp : pos.Versions = some pm) :
    Cookbook.diffLoop2 c1 c2 ks' pos = Cookbook.diffLoop2 c1 c2 ks pos := by
  rw [Cookbook.diffLoop2_eq c1 c2 ks pos pm hp, Cookbook.diffLoop2_eq c1 c2 ks' pos pm hp,
    GoMap.writes_perm _ ks ks' hperm]

theorem Cookbook.diffBuildIn_eq (o1 o2 : List String → List String)
    (h1 : IsOrder o1) (h2 : IsOrder o2) (x y : Option Cookbook) :
    Cookbook.diffBuildIn o1 o2 x y = Cookbook.diffBuild x y := by
  cases x with
  | none => cases y <;> rfl
  | some a =>
    cases y with
    | none => rfl
    | some b =>
      simp only [Cookbook.diffBuildIn, Cookbook.diffBuild, NewCookbook]
      rw [Cookbook.diffLoop1_perm a b (mapKeys a.Versions) (o1 (mapKeys a.Versions))
        (h1 _) _ _ GoMap.empty GoMap.empty (by split_ifs <;> rfl) (by split_ifs <;> rfl)]
      by_cases hok : Cookbook.NoNilReceiver a b (mapKeys a.Versions)
      · rw [Cookbook.diffLoop1_eq a b (mapKeys a.Versions) _ _ GoMap.empty GoMap.empty
          (by split_ifs <;> rfl) (by split_ifs <;> rfl) hok]
        simp only
        rw [Cookbook.diffLoop2_perm a b (mapKeys b.Versions) (o2 (mapKeys b.Versions))
          (h2 _) _ _ rfl]
      · have hf : ∃ k ∈ mapKeys a.Versions, b.index k ≠ none ∧ a.index k = none := by
          unfold Cookbook.NoNilReceiver at hok
          push_neg at hok
          exact hok
        rw [Cookbook.diffLoop1_fault a b _ hf]

theorem Cookbook.DiffIn_eq (oE o1 o2 oP oN : List String → List String)
    (hE : IsOrder oE) (h1 : IsOrder o1) (h2 : IsOrder o2) (hP : IsOrder oP) (hN : IsOrder oN)
    (x y : Option Cookbook) :
    Cookbook.DiffIn oE o1 o2 oP oN x y = Cookbook.Diff x y := by
  unfold Cookbook.DiffIn Cookbook.Diff
  rw [Cookbook.EqualsIn_eq oE hE, Cookbook.diffBuildIn_eq o1 o2 h1 h2]
  split_ifs
  · rfl
  · cases Cookbook.diffBuild x y with
    | none => rfl
    | some pn =>
      obtain ⟨pos, neg⟩ := pn
      simp only [Cookbook.EmptyIn_eq oP hP, Cookbook.EmptyIn_eq oN hN]

/-- C17.  Map order is irrelevant.  Whatever order each enumeration of a map takes (`oE` in
`Equals`, `o` in `Empty`, `o1` and `o2` in the two loops of `Diff`, `oP` and `oN` in its two
emptiness tests), `Equals`, `Empty` and `Diff` return the same result on every argument; and
Cookbooks `a'`, `b'` built from the entries of `a`, `b` (distinct keys) inserted in another
order get from the three operations the results of `a`, `b`. -/
theorem C17_map_order_irrelevant (oE o o1 o2 oP oN : List String → List String)
    (hE : IsOrder oE) (ho : IsOrder o) (h1 : IsOrder o1) (h2 : IsOrder o2)
    (hP : IsOrder oP) (hN : IsOrder oN)
    (na nb : String) (va va' vb vb' : List (String × Option CookbookVersion))
    (hpa : va.Perm va') (hpb : vb.Perm vb')
    (hna : (va.map Prod.fst).Nodup) (hnb : (vb.map Prod.fst).Nodup) :
    (∀ x y : Option Cookbook, Cookbook.EqualsIn oE x y = Cookbook.Equals x y) ∧
      (∀ x : Option Cookbook, Cookbook.EmptyIn o x = Cookbook.Empty x) ∧
      (∀ x y : Option Cookbook, Cookbook.DiffIn oE o1 o2 oP oN x y = Cookbook.Diff x y) ∧
      Cookbook.EqualsIn oE (some (mkCookbook na va')) (some (mkCookbook nb vb')) =
        Cookbook.Equals (some (mkCookbook na va)) (some (mkCookbook nb vb)) ∧
      Cookbook.EmptyIn o (some (mkCookbook na va')) = Cookbook.Empty (some (mkCookbook na va)) ∧
      Cookbook.DiffIn oE o1 o2 oP oN (some (mkCookbook na va')) (some (mkCookbook nb vb')) =
        Cookbook.Diff (some (mkCookbook na va)) (some (mkCookbook nb vb)) := by
  refine ⟨Cookbook.EqualsIn_eq oE hE, Cookbook.EmptyIn_eq o ho,
    Cookbook.DiffIn_eq oE o1 o2 oP oN hE h1 h2 hP hN, ?_, ?_, ?_⟩
  · rw [mkCookbook_perm na va va' hpa hna, mkCookbook_perm nb vb vb' hpb hnb,
      Cookbook.EqualsIn_eq oE hE]
  · rw [mkCookbook_perm na va va' hpa hna, Cookbook.EmptyIn_eq o ho]
  · rw [mkCookbook_perm na va va' hpa hna, mkCookbook_perm nb vb vb' hpb hnb,
      Cookbook.DiffIn_eq oE o1 o2 oP oN hE h1 h2 hP hN]

/-- C17, witness: every enumeration in reverse key order, and the two entries of the second
snapshot of scenario 2 inserted in the other order. -/
theorem C17_map_order_irrelevant_witness :
    IsOrder List.reverse ∧
      [("1.0.0", some vPlain), ("1.1.0", some (vZlib ">= 1.0"))].Perm
        [("1.1.0", some (vZlib ">= 1.0")), ("1.0.0", some vPlain)] ∧
      Cookbook.DiffIn List.reverse List.reverse List.reverse List.reverse List.reverse
          (some (mkCookbook "zlib" [("1.1.0", some (vZlib ">= 1.0")), ("1.0.0", some vPlain)]))
          (some (mkCookbook "zlib" [("1.0.0", some vPlain)])) =
        some (none, some (mkCookbook "" [("1.1.0", some (vZlib ">= 1.0"))])) ∧
      ((∀ x y : Option Cookbook, Cookbook.EqualsIn List.reverse x y = Cookbook.Equals x y) ∧
        (∀ x : Option Cookbook, Cookbook.EmptyIn List.reverse x = Cookbook.Empty x) ∧
        (∀ x y : Option Cookbook,
          Cookbook.DiffIn List.reverse List.reverse List.reverse List.reverse List.reverse x y =
            Cookbook.Diff x y) ∧
        Cookbook.EqualsIn List.reverse
            (some (mkCookbook "zlib"
              [("1.1.0", some (vZlib ">= 1.0")), ("1.0.0", some vPlain)]))
            (some (mkCookbook "zlib" [("1.0.0", some vPlain)])) =
          Cookbook.Equals
            (some (mkCookbook "zlib"
              [("1.0.0", some vPlain), ("1.1.0", some (vZlib ">= 1.0"))]))
            (some (mkCookbook "zlib" [("1.0.0", some vPlain)])) ∧
        Cookbook.EmptyIn List.reverse
            (some (mkCookbook "zlib"
              [("1.1.0", some (vZlib ">= 1.0")), ("1.0.0", some vPlain)])) =
          Cookbook.Empty
            (some (mkCookbook "zlib"
              [("1.0.0", some vPlain), ("1.1.0", some (vZlib ">= 1.0"))])) ∧
        Cookbook.DiffIn List.reverse List.reverse List.reverse List.reverse List.reverse
            (some (mkCookbook "zlib"
              [("1.1.0", some (vZlib ">= 1.0")), ("1.0.0", some vPlain)]))
            (some (mkCookbook "zlib" [("1.0.0", some vPlain)])) =
          Cookbook.Diff
            (some (mkCookbook "zlib"
              [("1.0.0", some vPlain), ("1.1.0", some (vZlib ">= 1.0"))]))
            (some (mkCookbook "zlib" [("1.0.0", some vPlain)]))) :=
  ⟨fun ks => List.reverse_perm ks, List.Perm.swap _ _ _, by decide,
    C17_map_order_irrelevant List.reverse List.reverse List.reverse List.reverse List.reverse
      List.reverse (fun ks => List.reverse_perm ks) (fun ks => List.reverse_perm ks)
      (fun ks => List.reverse_perm ks) (fun ks => List.reverse_perm ks)
      (fun ks => List.reverse_perm ks) (fun ks => List.reverse_perm ks)
      "zlib" "zlib"
      [("1.0.0", some vPlain), ("1.1.0", some (vZlib ">= 1.0"))]
      [("1.1.0", some (vZlib ">= 1.0")), ("1.0.0", some vPlain)]
      [("1.0.0", some vPlain)] [("1.0.0", some vPlain)]
      (List.Perm.swap _ _ _) (List.Perm.refl _) (by decide) (by decide)⟩

end Goulash
